import Mathlib

/-!
Shallow embedding of the flexman multi-objective search engine
(include/flexman/search/search.hpp, search/common.hpp, data_structure/*.hpp,
simulation/simulate.hpp, pso/optimize.hpp) together with theorems settling
the specification claims.

Modelling conventions:
* C++ `double` values are modelled as `Rat` (exact arithmetic);
  `std::numeric_limits<double>::max()` is the constant `dblMax`.
* The generic template parameters `State`, `Mode` (its payload) and
  `Resources` stay type parameters.  The problem-specific Manager callbacks
  become fields of a `Manager` structure, and the `Resources` operators
  used by the core (`Resources()`, `operator==`, `operator<`) are gathered
  in a `ResOps` structure.
* The wall-clock timer is modelled by an oracle `Timer : Nat -> Bool`
  mapping the index of a `has_timeout()` poll to its answer; the poll
  counter is threaded explicitly.  Wall-clock runtimes are not modelled:
  every `runtime` field is set to `0`.
* `throw std::invalid_argument` becomes `Except.error SearchError.invalidArgument`.
* Interactive single-key reads are modelled by an oracle `Nat -> KeyChoice`
  delivering the first recognized key of each read.
-/

/-- Search algorithms, from `flexman::search::SearchAlgorithm`. -/
inductive SearchAlgorithm where
  | Exhaustive
  | Heuristic
  | SingleMachine
deriving DecidableEq, Repr

/-- Switching modes, from `flexman::search::SwitchingMode`. -/
inductive SwitchingMode where
  | None
  | Increasing
  | Free
deriving DecidableEq, Repr

/-- Error kind for `throw std::invalid_argument`. -/
inductive SearchError where
  | invalidArgument
deriving DecidableEq, Repr

/-- Model of `std::numeric_limits<double>::max()`, which equals
`(2^53 - 1) * 2^971`; the powers are computed in `Nat`, split into factors
with exponents small enough for literal evaluation. -/
def dblMax : Rat :=
  ((2 ^ 53 - 1 : Nat) : Rat) *
    ((2 ^ 243 * 2 ^ 243 * 2 ^ 243 * 2 ^ 242 : Nat) : Rat)

/-- A run-length record, from `flexman::ModeExecution` (mode_execution.hpp). -/
structure ModeExecution where
  mode : Nat
  times : Nat
deriving DecidableEq, Repr

/-- From `flexman::add_mode_execution_to_sequence` (mode_execution.hpp lines 55-64):
if the sequence is empty or its back has a different mode, push a fresh record
with times 1; otherwise increment the back record.  The in-place mutation of
the vector back is expressed by structural recursion to the last element. -/
def add_mode_execution_to_sequence (mode : Nat) : List ModeExecution → List ModeExecution
  | [] => [⟨mode, 1⟩]
  | [e] =>
    if e.mode = mode then [⟨e.mode, e.times + 1⟩] else [e, ⟨mode, 1⟩]
  | e :: e2 :: rest => e :: add_mode_execution_to_sequence mode (e2 :: rest)

/-- From `flexman::Solution` (data_structure/solution.hpp). -/
structure Solution (State Resources : Type) where
  sequence : List ModeExecution
  state : State
  resources : Resources
  distance : Rat
deriving DecidableEq, Repr

/-- The `Resources` operations the core uses: value initialization
(`Resources()`), `operator==` and `operator<`. -/
structure ResOps (Resources : Type) where
  zero : Resources
  eqb : Resources → Resources → Bool
  ltb : Resources → Resources → Bool

/-- `Solution::operator==` (solution.hpp lines 36-39): sequences identical
or resources equal. -/
def solution_eq {State Resources : Type} (ops : ResOps Resources)
    (lhs rhs : Solution State Resources) : Bool :=
  decide (lhs.sequence = rhs.sequence) || ops.eqb lhs.resources rhs.resources

/-- `Solution::operator<` (solution.hpp lines 47-50): sequences differ and
resources strictly smaller. -/
def solution_lt {State Resources : Type} (ops : ResOps Resources)
    (lhs rhs : Solution State Resources) : Bool :=
  decide (lhs.sequence ≠ rhs.sequence) && ops.ltb lhs.resources rhs.resources

/-- From `flexman::Mode` (data_structure/mode.hpp): an id plus the
problem-specific dynamics descriptor and input (bundled as `payload`). -/
structure Mode (P : Type) where
  id : Nat
  payload : P
deriving DecidableEq, Repr

/-- From `flexman::ParetoFront` (data_structure/pareto_front.hpp). -/
structure ParetoFront (State Resources : Type) where
  solutions : List (Solution State Resources)
  step_length : Rat
  steps_per_iteration : Nat
  iteration : Nat
  runtime : Rat
deriving DecidableEq, Repr

/-- From `flexman::Result` (data_structure/result.hpp). -/
structure Result (State Resources : Type) where
  pareto_fronts : List (ParetoFront State Resources)
deriving DecidableEq, Repr

/-- From `flexman::Manager` (data_structure/manager.hpp): the scalar
parameters and the problem-binding callbacks.  The `timeout` member is
represented by the `Timer` oracle passed to the search instead. -/
structure Manager (State P Resources : Type) where
  initial_state : State
  target_state : State
  time_delta : Rat
  time_max : Rat
  threshold : Rat
  interactive : Bool
  updated_solution : Solution State Resources → Mode P → Solution State Resources
  is_complete : Solution State Resources → Bool
  dist : Solution State Resources → Rat
  is_strictly_better_than : Solution State Resources → Solution State Resources → Bool
  is_probably_better_than : Solution State Resources → Solution State Resources → Bool
  is_equal : Solution State Resources → Solution State Resources → Bool
  interpolate_resources : Resources → Resources → Rat → Resources
  interpolate_state : State → State → Rat → State

/-- The global timer: `has_timeout()` as a function of the poll index. -/
def Timer : Type := Nat → Bool

variable {State P Resources : Type}

/-- Loop of `find_solution_closest_to_zero` (search/common.hpp lines 105-118):
`for (t = 0; t <= time_delta; t += step_size)`, with `t = k * step_size`.
The fuel argument bounds the number of iterations; callers pass enough fuel
for the `t <= time_delta` test to terminate the loop (valid whenever
`step_size > 0`, i.e. `time_delta > 0` and `threshold > 0`). -/
def fsz_loop (mgr : Manager State P Resources)
    (previous current : Solution State Resources) (step_size : Rat) :
    Nat → Nat → Solution State Resources
  | 0, _ => current
  | fuel + 1, k =>
    let t : Rat := k * step_size
    if t ≤ mgr.time_delta then
      let relative := t / mgr.time_delta
      let sol : Solution State Resources :=
        { previous with
          resources := mgr.interpolate_resources previous.resources current.resources relative
          state := mgr.interpolate_state previous.state current.state relative }
      if mgr.is_complete sol then sol
      else fsz_loop mgr previous current step_size fuel (k + 1)
    else current

/-- From `flexman::search::find_solution_closest_to_zero`
(search/common.hpp lines 88-123). -/
def find_solution_closest_to_zero (mgr : Manager State P Resources)
    (previous current : Solution State Resources) : Solution State Resources :=
  let distance := |previous.distance|
  let step_factor := max 1 (distance / mgr.threshold)
  let step_size := mgr.time_delta / (10 * step_factor)
  fsz_loop mgr previous current step_size
    ((Rat.floor (mgr.time_delta / step_size)).toNat + 2) 0

/-- Loop body of `simulate_mode` (search/common.hpp lines 157-168): advance,
append the mode, and on completion bisect between the pre-step snapshot and
the current solution. -/
def simulate_mode_loop (mgr : Manager State P Resources) (mode : Mode P) :
    Nat → Solution State Resources → Solution State Resources
  | 0, solution => solution
  | steps + 1, solution =>
    let previous := solution
    let updated := mgr.updated_solution solution mode
    let appended : Solution State Resources :=
      { updated with sequence := add_mode_execution_to_sequence mode.id updated.sequence }
    if mgr.is_complete appended then find_solution_closest_to_zero mgr previous appended
    else simulate_mode_loop mgr mode steps appended

/-- From `flexman::search::simulate_mode` (search/common.hpp lines 137-171),
including its `steps == 0` validation. -/
def simulate_mode (mgr : Manager State P Resources) (mode : Mode P) (steps : Nat)
    (solution : Solution State Resources) :
    Except SearchError (Solution State Resources) :=
  if steps = 0 then .error .invalidArgument
  else .ok (simulate_mode_loop mgr mode steps solution)

/-- Children generated for one incomplete solution inside `extend_solutions`
(search/common.hpp lines 216-243).  `SwitchingMode.Free` simulates every mode;
`SwitchingMode.None` re-uses the tail mode of the sequence, looked up by id in
`modes` (out-of-range indexing, undefined in C++, yields no child here).
`SwitchingMode.Increasing` is embedded from the source loop over the ids from
the tail mode upward; this branch is never instantiated by the repository. -/
def extend_children (sw : SwitchingMode) (mgr : Manager State P Resources)
    (modes : List (Mode P)) (steps_per_iteration : Nat)
    (sol : Solution State Resources) : List (Solution State Resources) :=
  match sw with
  | .Free => modes.map (fun mode => simulate_mode_loop mgr mode steps_per_iteration sol)
  | .Increasing =>
    match sol.sequence.getLast? with
    | some last =>
      ((List.range modes.length).drop last.mode).filterMap (fun i =>
        (modes.get? i).map (fun mode => simulate_mode_loop mgr mode steps_per_iteration sol))
    | none => []
  | .None =>
    match sol.sequence.getLast? with
    | some last =>
      match modes.get? last.mode with
      | some mode => [simulate_mode_loop mgr mode steps_per_iteration sol]
      | none => []
    | none => []

/-- Loop of `extend_solutions` over the incomplete solutions, with the
`has_timeout()` poll after each one (search/common.hpp lines 216-243).
Returns the collected children and the advanced poll counter. -/
def extend_loop (sw : SwitchingMode) (mgr : Manager State P Resources)
    (modes : List (Mode P)) (steps_per_iteration : Nat) (timer : Timer) :
    List (Solution State Resources) → Nat →
    List (Solution State Resources) × Nat
  | [], pc => ([], pc)
  | sol :: rest, pc =>
    let children := extend_children sw mgr modes steps_per_iteration sol
    if timer pc then (children, pc + 1)
    else
      let (tailChildren, pcOut) :=
        extend_loop sw mgr modes steps_per_iteration timer rest (pc + 1)
      (children ++ tailChildren, pcOut)

/-- From `flexman::search::extend_solutions` (search/common.hpp lines
188-249), including its argument validation. -/
def extend_solutions (sw : SwitchingMode) (mgr : Manager State P Resources)
    (modes : List (Mode P)) (steps_per_iteration : Nat)
    (sols : List (Solution State Resources)) (timer : Timer) (pc : Nat) :
    Except SearchError (List (Solution State Resources) × Nat) :=
  if steps_per_iteration = 0 then .error .invalidArgument
  else if modes.isEmpty then .error .invalidArgument
  else .ok (extend_loop sw mgr modes steps_per_iteration timer sols pc)

/-- The dominance predicate selected by the `Algorithm` template parameter of
`remove_dominated_solutions` (search/common.hpp lines 290-295). -/
def dominates (alg : SearchAlgorithm) (mgr : Manager State P Resources)
    (other sol : Solution State Resources) : Bool :=
  match alg with
  | .Heuristic => mgr.is_probably_better_than other sol
  | _ => mgr.is_strictly_better_than other sol

/-- From the two-collection `flexman::search::remove_dominated_solutions`
(search/common.hpp lines 262-299): erase every solution dominated by some
element of the reference collection (with the early return on an empty
reference).  The aliasing check on the two vectors has no value-level
content and is omitted. -/
def remove_dominated_solutions (alg : SearchAlgorithm)
    (mgr : Manager State P Resources)
    (sols refs : List (Solution State Resources)) :
    List (Solution State Resources) :=
  if refs.isEmpty then sols
  else sols.filter (fun sol => ! refs.any (fun other => dominates alg mgr other sol))

/-- From the single-collection `flexman::search::remove_dominated_solutions`
(search/common.hpp lines 311-369): keep index `i` when no element at a
different index dominates it (the address comparison `&solution ==
&other_solution` is index equality). -/
def remove_dominated_solutions_self (alg : SearchAlgorithm)
    (mgr : Manager State P Resources)
    (sols : List (Solution State Resources)) :
    List (Solution State Resources) :=
  if sols.isEmpty then sols
  else
    ((sols.enum.filter (fun p =>
        ! sols.enum.any (fun q =>
          decide (q.1 ≠ p.1) && dominates alg mgr q.2 p.2))).map Prod.snd)

/-- Ordered insertion wrt the strict comparator, modelling the comparison
sort `std::sort(begin, end)` performed with `Solution::operator<`. -/
def ordered_insert_lt {α : Type} (lt : α → α → Bool) (x : α) :
    List α → List α
  | [] => [x]
  | y :: ys => if lt x y then x :: y :: ys else y :: ordered_insert_lt lt x ys

/-- Comparison sort used to model `std::sort` inside
`remove_duplicate_solutions`.  The comparator is not a strict weak order, so
the C++ sort has no canonical result; this stable insertion sort is one
deterministic model that agrees with `std::sort` on strict-weak-order inputs. -/
def sort_by_lt {α : Type} (lt : α → α → Bool) : List α → List α
  | [] => []
  | x :: xs => ordered_insert_lt lt x (sort_by_lt lt xs)

/-- Tail worker of `unique_adjacent`: drop elements equal to the last kept
one, exactly as `std::unique`. -/
def unique_adjacent_go {α : Type} (eq : α → α → Bool) (last : α) :
    List α → List α
  | [] => []
  | y :: ys =>
    if eq last y then unique_adjacent_go eq last ys
    else y :: unique_adjacent_go eq y ys

/-- Model of `std::unique`: remove every element comparing equal to the most
recently kept one. -/
def unique_adjacent {α : Type} (eq : α → α → Bool) : List α → List α
  | [] => []
  | x :: xs => x :: unique_adjacent_go eq x xs

/-- From `flexman::search::remove_duplicate_solutions`
(search/common.hpp lines 378-388): sort with `Solution::operator<`, then
drop adjacent duplicates under `Solution::operator==`. -/
def remove_duplicate_solutions (ops : ResOps Resources)
    (sols : List (Solution State Resources)) :
    List (Solution State Resources) :=
  unique_adjacent (solution_eq ops) (sort_by_lt (solution_lt ops) sols)

/-- From `flexman::search::split_complete_partial`
(search/common.hpp lines 401-436): partition into complete and incomplete
solutions (appended to the given accumulators).  `std::partition` does not
guarantee an order; the order-preserving partition is the deterministic
model used here. -/
def split_complete_and_incomplete (mgr : Manager State P Resources)
    (sols complete incomplete : List (Solution State Resources)) :
    List (Solution State Resources) × List (Solution State Resources) :=
  let parts := sols.partition (fun sol => mgr.is_complete sol)
  (complete ++ parts.1, incomplete ++ parts.2)

/-- From `flexman::search::move_elements` (search/common.hpp lines 69-75). -/
def move_elements {α : Type} (source destination : List α) : List α :=
  destination ++ source

/-- From `flexman::search::perform_search_single_iteration`
(search/search.hpp lines 34-93).  Extends the incomplete solutions (the
`partial_solutions` parameter, here `pending`), prunes the extended set
against the accepted set with the `Exhaustive` instantiation of
`remove_dominated_solutions` (line 68), splits complete from incomplete
(line 72), accepts and re-prunes the complete ones (lines 75-82), and under
`Heuristic` additionally prunes the new incomplete set against itself with
the `Heuristic` instantiation (lines 85-92).  Returns the new pending set,
the new accepted set and the advanced poll counter. -/
def perform_search_single_iteration (alg : SearchAlgorithm)
    (mgr : Manager State P Resources) (ops : ResOps Resources)
    (modes : List (Mode P)) (steps_per_iteration : Nat)
    (pending accepted : List (Solution State Resources))
    (timer : Timer) (pc : Nat) :
    Except SearchError
      (List (Solution State Resources) × List (Solution State Resources) × Nat) :=
  if steps_per_iteration = 0 then .error .invalidArgument
  else if modes.isEmpty then .error .invalidArgument
  else
    match
      (if alg = SearchAlgorithm.SingleMachine then
        extend_solutions SwitchingMode.None mgr modes steps_per_iteration pending timer pc
      else
        extend_solutions SwitchingMode.Free mgr modes steps_per_iteration pending timer pc) with
    | .error e => .error e
    | .ok (extended, pcOut) =>
      let extended2 :=
        remove_dominated_solutions SearchAlgorithm.Exhaustive mgr extended accepted
      let split := split_complete_and_incomplete mgr extended2 [] []
      let complete := split.1
      let incomplete := split.2
      let accepted2 :=
        if complete.isEmpty then accepted
        else
          remove_duplicate_solutions ops
            (remove_dominated_solutions_self SearchAlgorithm.Exhaustive mgr
              (move_elements complete accepted))
      let pendingOut :=
        if alg = SearchAlgorithm.Heuristic then
          remove_dominated_solutions SearchAlgorithm.Heuristic mgr incomplete incomplete
        else incomplete
      .ok (pendingOut, accepted2, pcOut)

/-- The bounded iteration loop of `perform_search_n_iterations`
(search/search.hpp lines 170-211): while the iteration count is below the
maximum and pending solutions remain, run one iteration, then break on a
timeout poll.  `fuel` equals `max_iterations - iteration`, so the loop
guard `iteration < max_iterations` is `fuel > 0`.  Returns the final
iteration count, the accepted set and the poll counter. -/
def search_iteration_loop (alg : SearchAlgorithm)
    (mgr : Manager State P Resources) (ops : ResOps Resources)
    (modes : List (Mode P)) (steps_per_iteration : Nat) (timer : Timer) :
    Nat → Nat → List (Solution State Resources) →
    List (Solution State Resources) → Nat →
    Except SearchError (Nat × List (Solution State Resources) × Nat)
  | 0, iteration, _, accepted, pc => .ok (iteration, accepted, pc)
  | fuel + 1, iteration, pending, accepted, pc =>
    if pending.isEmpty then .ok (iteration, accepted, pc)
    else
      match
        perform_search_single_iteration alg mgr ops modes steps_per_iteration
          pending accepted timer pc with
      | .error e => .error e
      | .ok (pending2, accepted2, pc2) =>
        if timer pc2 then .ok (iteration + 1, accepted2, pc2 + 1)
        else
          search_iteration_loop alg mgr ops modes steps_per_iteration timer
            fuel (iteration + 1) pending2 accepted2 (pc2 + 1)

/-- The seed solutions of `perform_search_n_iterations`
(search/search.hpp lines 138-149): one per mode, with sequence
`[(mode.id, 0)]`, the initial state, zero resources and maximal distance. -/
def seed_solutions (mgr : Manager State P Resources) (ops : ResOps Resources)
    (modes : List (Mode P)) : List (Solution State Resources) :=
  modes.map (fun mode =>
    { sequence := [⟨mode.id, 0⟩]
      state := mgr.initial_state
      resources := ops.zero
      distance := dblMax })

/-- The iteration bound of `perform_search_n_iterations`
(search/search.hpp lines 161-164): `time_max / (time_delta * steps)`
truncated to an unsigned integer. -/
def max_iterations_of (mgr : Manager State P Resources)
    (steps_per_iteration : Nat) : Nat :=
  (Rat.floor (mgr.time_max / (mgr.time_delta * (steps_per_iteration : Rat)))).toNat

/-- From `flexman::search::perform_search_n_iterations`
(search/search.hpp lines 110-223): validations, seeding, the bounded loop,
and the resulting Pareto front. -/
def perform_search_n_iterations (alg : SearchAlgorithm)
    (mgr : Manager State P Resources) (ops : ResOps Resources)
    (modes : List (Mode P)) (steps_per_iteration : Nat)
    (previous_pareto_front : ParetoFront State Resources)
    (timer : Timer) (pc : Nat) :
    Except SearchError (ParetoFront State Resources × Nat) :=
  if steps_per_iteration = 0 then .error .invalidArgument
  else if modes.isEmpty then .error .invalidArgument
  else
    match
      search_iteration_loop alg mgr ops modes steps_per_iteration timer
        (max_iterations_of mgr steps_per_iteration) 0
        (seed_solutions mgr ops modes) previous_pareto_front.solutions pc with
    | .error e => .error e
    | .ok (iteration, accepted, pcOut) =>
      .ok
        ({ solutions := accepted
           step_length := mgr.time_delta * (steps_per_iteration : Rat)
           steps_per_iteration := steps_per_iteration
           iteration := iteration
           runtime := 0 }, pcOut)

/-- The recognized interactive keys of `perform_search`
(search/search.hpp lines 316-327); unrecognized characters are skipped by
the source read loop, so the oracle delivers recognized keys directly. -/
inductive KeyChoice where
  | c
  | r
  | q
deriving DecidableEq, Repr

/-- The interactive pause of `perform_search` (search/search.hpp lines
310-331): when interaction is enabled, read one key; `c` continues, `r`
continues and disables further interaction, `q` zeroes the stride so the
loop exits.  Returns the (possibly zeroed) stride, the disable flag and the
advanced key index. -/
def interactive_step (disable interactive : Bool) (keys : Nat → KeyChoice)
    (ki s : Nat) : Nat × Bool × Nat :=
  if !disable && interactive then
    match keys ki with
    | .c => (s, disable, ki + 1)
    | .r => (s, true, ki + 1)
    | .q => (0, disable, ki + 1)
  else (s, disable, ki)

theorem interactive_step_fst_le (disable interactive : Bool)
    (keys : Nat → KeyChoice) (ki s : Nat) :
    (interactive_step disable interactive keys ki s).1 ≤ s := by
  unfold interactive_step
  by_cases hcase : (!disable && interactive) = true
  · simp only [hcase, if_true]
    cases keys ki <;> simp
  · simp [hcase]

/-- The stride-halving loop of `perform_search` (search/search.hpp lines
294-338): run the bounded search at the current stride, append the front if
non-empty, optionally consult the interactive key oracle (where `q` zeroes
the stride), and stop on the timeout poll; otherwise continue with the
halved stride.  The structural `fuel` argument only bounds the number of
passes: the stride strictly decreases, so any `fuel ≥ s` (the caller passes
the initial stride itself) makes the `fuel = 0` branch unreachable. -/
def stride_loop (alg : SearchAlgorithm)
    (mgr : Manager State P Resources) (ops : ResOps Resources)
    (modes : List (Mode P)) (timer : Timer) (keys : Nat → KeyChoice) :
    Nat → Nat → ParetoFront State Resources →
    List (ParetoFront State Resources) → Bool → Nat → Nat →
    Except SearchError (List (ParetoFront State Resources))
  | 0, _, _, acc, _, _, _ => .ok acc
  | fuel + 1, s, front, acc, disable, pc, ki =>
    if 1 ≤ s then
      match perform_search_n_iterations alg mgr ops modes s front timer pc with
      | .error e => .error e
      | .ok (front2, pc2) =>
        let acc2 :=
          if front2.solutions.isEmpty then acc
          else acc ++ [{ front2 with runtime := 0 }]
        let next := interactive_step disable mgr.interactive keys ki s
        if timer pc2 then .ok acc2
        else
          stride_loop alg mgr ops modes timer keys fuel (next.1 / 2) front2 acc2
            next.2.1 (pc2 + 1) next.2.2
    else .ok acc

/-- The default-constructed `ParetoFront` carried into the first stride of
`perform_search` (value-initialized members). -/
def empty_front : ParetoFront State Resources :=
  { solutions := [], step_length := 0, steps_per_iteration := 0,
    iteration := 0, runtime := 0 }

/-- The initial stride factor of `perform_search`
(search/search.hpp lines 270-277). -/
def init_stride (alg : SearchAlgorithm) (iterations : Nat) : Nat :=
  if alg = SearchAlgorithm.SingleMachine then 1 else 2 ^ (iterations - 1)

/-- From `flexman::search::perform_search` (search/search.hpp lines
237-341): validation, initial stride computation and the stride-halving
loop collecting the non-empty Pareto fronts into the result. -/
def perform_search (alg : SearchAlgorithm)
    (mgr : Manager State P Resources) (ops : ResOps Resources)
    (modes : List (Mode P)) (iterations : Nat)
    (timer : Timer) (keys : Nat → KeyChoice) :
    Except SearchError (Result State Resources) :=
  if iterations = 0 then .error .invalidArgument
  else
    match
      stride_loop alg mgr ops modes timer keys (init_stride alg iterations)
        (init_stride alg iterations) empty_front [] false 0 0 with
    | .error e => .error e
    | .ok fronts => .ok { pareto_fronts := fronts }

/-- The concrete resource record of the repository examples
(`tapping::resources_t`, examples/tapping/resources.hpp), which the PSO
fitness `resources.energy + resources.time` requires. -/
structure ResourcesQ where
  energy : Rat
  time : Rat
deriving DecidableEq, Repr

/-- Inner loop of `generate_solution` (simulation/simulate.hpp lines 66-81)
for a single run-length record: apply the mode `times` times, appending to
the sequence, and on completion bisect and break out of this record. -/
def gen_record_loop (mgr : Manager State P Resources) (mode : Mode P)
    (record_mode : Nat) :
    Nat → Solution State Resources → Solution State Resources
  | 0, solution => solution
  | times + 1, solution =>
    let old := solution
    let updated := mgr.updated_solution solution mode
    let appended : Solution State Resources :=
      { updated with sequence := add_mode_execution_to_sequence record_mode updated.sequence }
    if mgr.is_complete appended then find_solution_closest_to_zero mgr old appended
    else gen_record_loop mgr mode record_mode times appended

/-- From `flexman::simulation::generate_solution` (simulation/simulate.hpp
lines 53-83): replay a run-length sequence from the initial state.  The
`break` on completion leaves only the current record; subsequent records are
still processed.  A record whose mode id is out of range of `modes`
(undefined behaviour in C++) is skipped. -/
def generate_solution (mgr : Manager State P Resources) (ops : ResOps Resources)
    (modes : List (Mode P)) (sequence : List ModeExecution) :
    Solution State Resources :=
  sequence.foldl
    (fun solution record =>
      match modes.get? record.mode with
      | some mode => gen_record_loop mgr mode record.mode record.times solution
      | none => solution)
    { sequence := []
      state := mgr.initial_state
      resources := ops.zero
      distance := dblMax }

/-- From `flexman::pso::SolverParameters` (pso/common.hpp). -/
structure SolverParameters where
  num_particles : Nat
  max_iterations : Nat
  inertia : Rat
  cognitive : Rat
  social : Rat
deriving DecidableEq, Repr

/-- The PSO fitness scalarization hard-coded in `evaluate_particle`
(pso/optimize.hpp line 154): `energy + time`. -/
def scalarize (r : ResourcesQ) : Rat := r.energy + r.time

/-- From `flexman::pso::update_particle_velocity_and_position`
(pso/optimize.hpp lines 50-74): the velocity update and the position update
clamped to `[1, ...)`; `static_cast<std::size_t>` truncates the clamped
double toward zero. -/
def update_particle_velocity_and_position (parameters : SolverParameters)
    (personal_best global_best : ModeExecution) (velocity : Rat)
    (particle : ModeExecution) : Rat × ModeExecution :=
  let inertia_contribution := parameters.inertia * velocity
  let cognitive_contribution :=
    parameters.cognitive * ((personal_best.times : Rat) - (particle.times : Rat))
  let social_contribution :=
    parameters.social * ((global_best.times : Rat) - (particle.times : Rat))
  let velocity2 := inertia_contribution + cognitive_contribution + social_contribution
  let updated_times := (particle.times : Rat) + velocity2
  (velocity2, { particle with times := (Rat.floor (max updated_times 1)).toNat })

/-- Slot-wise traversal of one particle inside
`flexman::pso::update_all_particles` (pso/optimize.hpp lines 98-109).  The
source indexes the personal and global bests by the particle slot index;
the traversal stops with the shortest list (the lengths agree in every
reachable call). -/
def update_slots (parameters : SolverParameters) :
    List ModeExecution → List ModeExecution → List Rat → List ModeExecution →
    List Rat × List ModeExecution
  | pb :: pbs, gb :: gbs, v :: vs, p :: ps =>
    let upd := update_particle_velocity_and_position parameters pb gb v p
    let rest := update_slots parameters pbs gbs vs ps
    (upd.1 :: rest.1, upd.2 :: rest.2)
  | _, _, _, _ => ([], [])

/-- From `flexman::pso::update_all_particles` (pso/optimize.hpp lines
90-110): update every particle of the swarm. -/
def update_all_particles (parameters : SolverParameters)
    (personal_best : List (List ModeExecution))
    (global_best : List ModeExecution)
    (velocities : List (List Rat))
    (particles : List (List ModeExecution)) :
    List (List Rat) × List (List ModeExecution) :=
  match personal_best, velocities, particles with
  | pb :: pbs, v :: vs, p :: ps =>
    let upd := update_slots parameters pb global_best v p
    let rest := update_all_particles parameters pbs global_best vs ps
    (upd.1 :: rest.1, upd.2 :: rest.2)
  | _, _, _ => ([], [])

/-- From `flexman::pso::evaluate_particle` (pso/optimize.hpp lines 135-174):
generate the particle solution, score it (`energy + time`, or the maximal
double as penalty when incomplete), and update the personal and global
bests.  Returns the validity flag and the updated bests. -/
def evaluate_particle (mgr : Manager State P ResourcesQ)
    (ops : ResOps ResourcesQ) (modes : List (Mode P))
    (particle personal_best global_best : List ModeExecution)
    (personal_best_fitness global_best_fitness : Rat) :
    Bool × List ModeExecution × List ModeExecution × Rat × Rat :=
  let solution := generate_solution mgr ops modes particle
  let valid := mgr.is_complete solution
  let fitness := if valid then scalarize solution.resources else dblMax
  let personal :=
    if fitness < personal_best_fitness then (particle, fitness)
    else (personal_best, personal_best_fitness)
  let global :=
    if fitness < global_best_fitness then (particle, fitness)
    else (global_best, global_best_fitness)
  (valid, personal.1, global.1, personal.2, global.2)

/-- The evaluation sweep of the main PSO loop (pso/optimize.hpp lines
244-253): evaluate the particles in order, threading the global best. -/
def evaluate_all (mgr : Manager State P ResourcesQ) (ops : ResOps ResourcesQ)
    (modes : List (Mode P)) :
    List (List ModeExecution) → List (List ModeExecution) → List Rat →
    List ModeExecution → Rat →
    List (List ModeExecution) × List Rat × List ModeExecution × Rat
  | [], _, _, gb, gbf => ([], [], gb, gbf)
  | _ :: _, [], _, gb, gbf => ([], [], gb, gbf)
  | _ :: _, _ :: _, [], gb, gbf => ([], [], gb, gbf)
  | particle :: particles, pb :: pbs, pbf :: pbfs, gb, gbf =>
    let step := evaluate_particle mgr ops modes particle pb gb pbf gbf
    let rest := evaluate_all mgr ops modes particles pbs pbfs step.2.2.1 step.2.2.2.2
    (step.2.1 :: rest.1, step.2.2.2.1 :: rest.2.1, rest.2.2)

/-- One outer PSO iteration (pso/optimize.hpp lines 239-271): evaluate all
particles, then update every velocity and position. -/
def pso_iteration (mgr : Manager State P ResourcesQ) (ops : ResOps ResourcesQ)
    (parameters : SolverParameters) (modes : List (Mode P))
    (particles personal_best : List (List ModeExecution))
    (personal_best_fitness : List Rat) (velocities : List (List Rat))
    (global_best : List ModeExecution) (global_best_fitness : Rat) :
    List (List ModeExecution) × List (List ModeExecution) × List Rat ×
      List (List Rat) × List ModeExecution × Rat :=
  let eval :=
    evaluate_all mgr ops modes particles personal_best personal_best_fitness
      global_best global_best_fitness
  let pbs2 := eval.1
  let pbfs2 := eval.2.1
  let gb2 := eval.2.2.1
  let gbf2 := eval.2.2.2
  let upd := update_all_particles parameters pbs2 gb2 velocities particles
  (upd.2, pbs2, pbfs2, upd.1, gb2, gbf2)

/-- The main PSO loop, iterated `max_iterations` times. -/
def pso_main_loop (mgr : Manager State P ResourcesQ) (ops : ResOps ResourcesQ)
    (parameters : SolverParameters) (modes : List (Mode P)) :
    Nat → List (List ModeExecution) → List (List ModeExecution) → List Rat →
    List (List Rat) → List ModeExecution → Rat → List ModeExecution × Rat
  | 0, _, _, _, _, gb, gbf => (gb, gbf)
  | n + 1, particles, pbs, pbfs, vels, gb, gbf =>
    let step := pso_iteration mgr ops parameters modes particles pbs pbfs vels gb gbf
    pso_main_loop mgr ops parameters modes n step.1 step.2.1 step.2.2.1
      step.2.2.2.1 step.2.2.2.2.1 step.2.2.2.2.2

/-- Particle initialization jitter (pso/optimize.hpp lines 229-232): each
record's times becomes `max(times + U(1,10) - 5, 1)` truncated to an
integer.  The Mersenne-Twister draws are supplied by the oracle `rng`,
consumed one per record slot. -/
def jitter_sequence (rng : Nat → Rat) (ri : Nat) :
    List ModeExecution → List ModeExecution × Nat
  | [] => ([], ri)
  | record :: rest =>
    let times2 := (Rat.floor (max ((record.times : Rat) + rng ri - 5) 1)).toNat
    let tail := jitter_sequence rng (ri + 1) rest
    ({ record with times := times2 } :: tail.1, tail.2)

/-- Particle initialization (pso/optimize.hpp lines 218-233): every particle
starts from the seed sequence; the personal best is the unjittered copy, the
velocities are zero, and the particle itself is jittered. -/
def init_particles (rng : Nat → Rat) (seed : List ModeExecution) :
    Nat → Nat → List (List ModeExecution) × List (List ModeExecution) ×
      List (List Rat) × Nat
  | 0, ri => ([], [], [], ri)
  | n + 1, ri =>
    let jit := jitter_sequence rng ri seed
    let rest := init_particles rng seed n jit.2
    (jit.1 :: rest.1, seed :: rest.2.1,
      (seed.map (fun _ => (0 : Rat))) :: rest.2.2.1, rest.2.2.2)

/-- From `flexman::pso::optimize_solution` (pso/optimize.hpp lines 198-278):
particle initialization, the global best seeded from `personal_best[0]`
(modelled with the seed sequence as fallback for an empty swarm, which is
undefined behaviour in C++) with the seed fitness `energy + time`, the main
loop, and the final replay of the global best sequence. -/
def optimize_solution (mgr : Manager State P ResourcesQ)
    (ops : ResOps ResourcesQ) (parameters : SolverParameters)
    (modes : List (Mode P)) (rng : Nat → Rat)
    (initial_solution : Solution State ResourcesQ) :
    Solution State ResourcesQ :=
  let init := init_particles rng initial_solution.sequence parameters.num_particles 0
  let particles := init.1
  let personal_best := init.2.1
  let velocities := init.2.2.1
  let personal_best_fitness := List.replicate parameters.num_particles dblMax
  let global_best := personal_best.getD 0 initial_solution.sequence
  let global_best_fitness := scalarize initial_solution.resources
  let final :=
    pso_main_loop mgr ops parameters modes parameters.max_iterations particles
      personal_best personal_best_fitness velocities global_best
      global_best_fitness
  generate_solution mgr ops modes final.1

/-- From `flexman::pso::optimize_pareto_front` (pso/optimize.hpp lines
291-316): optimize every solution of the front in order, preserving the
front metadata.  Each `optimize_solution` call constructs a fresh random
generator in the source; the per-solution oracle `rngs` supplies those
independent streams. -/
def optimize_pareto_front (mgr : Manager State P ResourcesQ)
    (ops : ResOps ResourcesQ) (parameters : SolverParameters)
    (modes : List (Mode P)) (rngs : Nat → Nat → Rat)
    (pareto_front : ParetoFront State ResourcesQ) :
    ParetoFront State ResourcesQ :=
  { solutions :=
      (pareto_front.solutions.enum).map (fun p =>
        optimize_solution mgr ops parameters modes (rngs p.1) p.2)
    step_length := pareto_front.step_length
    steps_per_iteration := pareto_front.steps_per_iteration
    iteration := pareto_front.iteration
    runtime := pareto_front.runtime }

/-- From `flexman::pso::optimize_result` (pso/optimize.hpp lines 329-351):
optimize every front of the result in order. -/
def optimize_result (mgr : Manager State P ResourcesQ)
    (ops : ResOps ResourcesQ) (parameters : SolverParameters)
    (modes : List (Mode P)) (rngss : Nat → Nat → Nat → Rat)
    (result : Result State ResourcesQ) : Result State ResourcesQ :=
  { pareto_fronts :=
      (result.pareto_fronts.enum).map (fun p =>
        optimize_pareto_front mgr ops parameters modes (rngss p.1) p.2) }

/-- Exact `ResourcesQ` operations: value initialization to zero, exact
equality, and the lexicographic `operator<` of `tapping::resources_t`
(energy first, then time), with the approximate float comparisons of the
example replaced by exact rational ones. -/
def resOpsQ : ResOps ResourcesQ :=
  { zero := ⟨0, 0⟩
    eqb := fun a b => decide (a = b)
    ltb := fun a b =>
      if a.energy ≠ b.energy then decide (a.energy < b.energy)
      else decide (a.time < b.time) }

/-- Exact componentwise `operator<=` on `ResourcesQ`
(`tapping::resources_t`). -/
def res_leb (a b : ResourcesQ) : Bool :=
  decide (a.energy ≤ b.energy) && decide (a.time ≤ b.time)

/-- A concrete manager instance of the abstract contract, in the style of
`tapping::discrete_search_t`: one-dimensional state, two modes whose payload
is a (state increment, energy cost) pair, `time_delta = 1`, `time_max = 2`,
`threshold = 1/2`, and the specified target.  Distances, completion, the two
dominance predicates and the linear interpolations follow
examples/tapping/search.hpp with exact comparisons. -/
def mkToyMgr (target : Rat) : Manager Rat (Rat × Rat) ResourcesQ :=
  { initial_state := 0
    target_state := target
    time_delta := 1
    time_max := 2
    threshold := 1 / 2
    interactive := false
    updated_solution := fun sol mode =>
      let st := sol.state + mode.payload.1
      { sol with
        state := st
        distance := target - st
        resources :=
          ⟨sol.resources.energy + mode.payload.2, sol.resources.time + 1⟩ }
    is_complete := fun sol => decide (target - sol.state < 1 / 2)
    dist := fun sol => target - sol.state
    is_strictly_better_than := fun x y =>
      if x.sequence = y.sequence then false
      else
        decide (target - x.state < 1 / 2) && res_leb x.resources y.resources &&
          !(resOpsQ.eqb x.resources y.resources)
    is_probably_better_than := fun x y =>
      if x.sequence = y.sequence then false
      else
        let xd := target - x.state
        let yd := target - y.state
        if decide (xd ≤ yd) && res_leb x.resources y.resources then
          decide (xd < yd) || resOpsQ.ltb x.resources y.resources
        else false
    is_equal := fun x y =>
      decide (x.sequence = y.sequence) || resOpsQ.eqb x.resources y.resources
    interpolate_resources := fun r0 r1 rel =>
      ⟨r0.energy + rel * (r1.energy - r0.energy),
        r0.time + rel * (r1.time - r0.time)⟩
    interpolate_state := fun s0 s1 rel => s0 + rel * (s1 - s0) }

/-- The near-target toy manager used by the concrete search runs. -/
def toyMgr : Manager Rat (Rat × Rat) ResourcesQ := mkToyMgr 2

/-- The far-target toy manager used by the PSO counterexample. -/
def toyMgrFar : Manager Rat (Rat × Rat) ResourcesQ := mkToyMgr 5

/-- Two modes: mode 0 does not advance the state (energy cost 1 per step);
mode 1 advances by 1 (energy cost 1 per step). -/
def toyModes : List (Mode (Rat × Rat)) := [⟨0, (0, 1)⟩, ⟨1, (1, 1)⟩]

/-- A timer whose timeout fired before the first poll. -/
def timerAlways : Timer := fun _ => true

/-- A timer that never times out. -/
def timerNever : Timer := fun _ => false

/-- A key oracle always delivering `c`. -/
def keysC : Nat → KeyChoice := fun _ => KeyChoice.c

/-- Whether some solution of some front of a search result contains a
run-length record with `times = 0`. -/
def result_has_zero_times (r : Except SearchError (Result Rat ResourcesQ)) : Bool :=
  match r with
  | .ok res =>
    res.pareto_fronts.any (fun f =>
      f.solutions.any (fun s => s.sequence.any (fun e => decide (e.times = 0))))
  | .error _ => false

/-- Number of Pareto fronts of a search result (zero on error). -/
def result_front_count (r : Except SearchError (Result Rat ResourcesQ)) : Nat :=
  match r with
  | .ok res => res.pareto_fronts.length
  | .error _ => 0

/-- Pruning against a reference set under an explicitly named dominance
predicate (the shape of spec section 4.4.2 (a)). -/
def prune_against_pred {State Resources : Type}
    (pred : Solution State Resources → Solution State Resources → Bool)
    (sols refs : List (Solution State Resources)) :
    List (Solution State Resources) :=
  sols.filter (fun sol => ! refs.any (fun other => pred other sol))

/-- Self-pruning under an explicitly named dominance predicate (the shape of
spec section 4.4.2 (b)); identity of elements is index identity. -/
def prune_self_pred {State Resources : Type}
    (pred : Solution State Resources → Solution State Resources → Bool)
    (sols : List (Solution State Resources)) :
    List (Solution State Resources) :=
  (sols.enum.filter (fun p =>
    ! sols.enum.any (fun q => decide (q.1 ≠ p.1) && pred q.2 p.2))).map Prod.snd

theorem prune_against_pred_nil {State Resources : Type}
    (pred : Solution State Resources → Solution State Resources → Bool)
    (sols : List (Solution State Resources)) :
    prune_against_pred pred sols [] = sols := by
  unfold prune_against_pred
  induction sols with
  | nil => rfl
  | cons x xs ih => simp [List.filter, ih]

theorem remove_dominated_eq_prune_strict
    (mgr : Manager State P Resources)
    (sols refs : List (Solution State Resources)) :
    remove_dominated_solutions SearchAlgorithm.Exhaustive mgr sols refs =
      prune_against_pred mgr.is_strictly_better_than sols refs := by
  unfold remove_dominated_solutions
  by_cases h : refs.isEmpty
  · rw [List.isEmpty_iff] at h
    subst h
    simp [prune_against_pred_nil]
  · simp only [h, if_false]
    rfl

theorem remove_dominated_eq_prune_probable
    (mgr : Manager State P Resources)
    (sols refs : List (Solution State Resources)) :
    remove_dominated_solutions SearchAlgorithm.Heuristic mgr sols refs =
      prune_against_pred mgr.is_probably_better_than sols refs := by
  unfold remove_dominated_solutions
  by_cases h : refs.isEmpty
  · rw [List.isEmpty_iff] at h
    subst h
    simp [prune_against_pred_nil]
  · simp only [h, if_false]
    rfl

theorem remove_dominated_self_eq_prune_strict
    (mgr : Manager State P Resources)
    (sols : List (Solution State Resources)) :
    remove_dominated_solutions_self SearchAlgorithm.Exhaustive mgr sols =
      prune_self_pred mgr.is_strictly_better_than sols := by
  unfold remove_dominated_solutions_self
  by_cases h : sols.isEmpty
  · rw [List.isEmpty_iff] at h
    subst h
    rfl
  · simp only [h, if_false]
    rfl

/-- The single search iteration written with the dominance predicates the
spec names at each prune site: the freshly extended set and the accepted set
are pruned under `is_strictly_better_than` for every algorithm, and only the
Heuristic prune of the new incomplete set against itself uses
`is_probably_better_than`. -/
def single_iteration_spec (alg : SearchAlgorithm)
    (mgr : Manager State P Resources) (ops : ResOps Resources)
    (modes : List (Mode P)) (steps_per_iteration : Nat)
    (pending accepted : List (Solution State Resources))
    (timer : Timer) (pc : Nat) :
    Except SearchError
      (List (Solution State Resources) × List (Solution State Resources) × Nat) :=
  if steps_per_iteration = 0 then .error .invalidArgument
  else if modes.isEmpty then .error .invalidArgument
  else
    match
      (if alg = SearchAlgorithm.SingleMachine then
        extend_solutions SwitchingMode.None mgr modes steps_per_iteration pending timer pc
      else
        extend_solutions SwitchingMode.Free mgr modes steps_per_iteration pending timer pc) with
    | .error e => .error e
    | .ok (extended, pcOut) =>
      let extended2 := prune_against_pred mgr.is_strictly_better_than extended accepted
      let parts := extended2.partition (fun sol => mgr.is_complete sol)
      let accepted2 :=
        if parts.1.isEmpty then accepted
        else
          remove_duplicate_solutions ops
            (prune_self_pred mgr.is_strictly_better_than (accepted ++ parts.1))
      let pendingOut :=
        if alg = SearchAlgorithm.Heuristic then
          prune_against_pred mgr.is_probably_better_than parts.2 parts.2
        else parts.2
      .ok (pendingOut, accepted2, pcOut)

/-- Claim C1: in every call of the single-iteration search step, for each of
the three algorithms, the freshly extended solutions are pruned against the
accepted set under `is_strictly_better_than` (as is the accepted set against
itself), and only the Heuristic prune of the new incomplete set uses
`is_probably_better_than`: the embedded iteration equals the
predicate-explicit pipeline for all inputs. -/
theorem claim_C1_single_iteration_prune_predicates (alg : SearchAlgorithm)
    (mgr : Manager State P Resources) (ops : ResOps Resources)
    (modes : List (Mode P)) (steps_per_iteration : Nat)
    (pending accepted : List (Solution State Resources))
    (timer : Timer) (pc : Nat) :
    perform_search_single_iteration alg mgr ops modes steps_per_iteration
        pending accepted timer pc =
      single_iteration_spec alg mgr ops modes steps_per_iteration
        pending accepted timer pc := by
  unfold perform_search_single_iteration single_iteration_spec
  by_cases hsteps : steps_per_iteration = 0
  · simp [hsteps]
  by_cases hmodes : modes.isEmpty
  · simp [hsteps, hmodes]
  simp only [hsteps, hmodes, if_false]
  cases alg with
  | Exhaustive =>
    cases hext : extend_solutions SwitchingMode.Free mgr modes steps_per_iteration pending timer pc with
    | error e => simp [hext]
    | ok v =>
      simp [hext, split_complete_and_incomplete, move_elements,
        remove_dominated_eq_prune_strict, remove_dominated_self_eq_prune_strict]
  | Heuristic =>
    cases hext : extend_solutions SwitchingMode.Free mgr modes steps_per_iteration pending timer pc with
    | error e => simp [hext]
    | ok v =>
      simp [hext, split_complete_and_incomplete, move_elements,
        remove_dominated_eq_prune_strict, remove_dominated_self_eq_prune_strict,
        remove_dominated_eq_prune_probable]
  | SingleMachine =>
    cases hext : extend_solutions SwitchingMode.None mgr modes steps_per_iteration pending timer pc with
    | error e => simp [hext]
    | ok v =>
      simp [hext, split_complete_and_incomplete, move_elements,
        remove_dominated_eq_prune_strict, remove_dominated_self_eq_prune_strict]

theorem unique_adjacent_go_chain {α : Type} (eq : α → α → Bool) :
    ∀ (l : List α) (x : α),
      List.Chain' (fun a b => eq a b = false) (x :: unique_adjacent_go eq x l)
  | [], _ => List.chain'_singleton _
  | y :: ys, x => by
    unfold unique_adjacent_go
    by_cases h : eq x y = true
    · simp only [h, if_true]
      exact unique_adjacent_go_chain eq ys x
    · simp only [h, if_false]
      have tail := unique_adjacent_go_chain eq ys y
      exact List.Chain'.cons (Bool.eq_false_iff.mpr h) tail

theorem unique_adjacent_chain {α : Type} (eq : α → α → Bool) (l : List α) :
    List.Chain' (fun a b => eq a b = false) (unique_adjacent eq l) := by
  cases l with
  | nil => exact List.chain'_nil
  | cons x xs => exact unique_adjacent_go_chain eq xs x

/-- Claim C2 (amended): after `remove_duplicate_solutions`, no two adjacent
solutions of the returned vector compare equal under `Solution::operator==`;
non-adjacent equal pairs can survive because the relation is not transitive
and the comparator is not a strict weak order. -/
theorem claim_C2_no_adjacent_duplicates (ops : ResOps Resources)
    (sols : List (Solution State Resources)) :
    List.Chain' (fun x y => solution_eq ops x y = false)
      (remove_duplicate_solutions ops sols) :=
  unique_adjacent_chain (solution_eq ops) (sort_by_lt (solution_lt ops) sols)

/-- First element of the C2 counterexample: sequence `[(0,1)]`, resources
`(0, 0)`. -/
def dupA : Solution Rat ResourcesQ :=
  { sequence := [⟨0, 1⟩], state := 0, resources := ⟨0, 0⟩, distance := 0 }

/-- Second element of the C2 counterexample: sequence `[(1,1)]`, resources
`(1, 1)`; it sorts strictly between the other two. -/
def dupB : Solution Rat ResourcesQ :=
  { sequence := [⟨1, 1⟩], state := 0, resources := ⟨1, 1⟩, distance := 0 }

/-- Third element of the C2 counterexample: the same sequence as `dupA` (so
the two compare equal) but different resources, so `operator<` never orders
it against `dupA` and the sort leaves `dupB` between them. -/
def dupC : Solution Rat ResourcesQ :=
  { sequence := [⟨0, 1⟩], state := 0, resources := ⟨2, 2⟩, distance := 0 }

/-- Claim C2 counterexample: on the input `[dupA, dupB, dupC]` the function
returns the input unchanged, yet `dupA` and `dupC` are two distinct
remaining solutions that compare equal under the Solution equality
relation. -/
theorem claim_C2_counterexample :
    remove_duplicate_solutions resOpsQ [dupA, dupB, dupC] = [dupA, dupB, dupC] ∧
      solution_eq resOpsQ dupA dupC = true ∧ dupA ≠ dupC := by
  decide

theorem extend_solutions_ok (sw : SwitchingMode)
    (mgr : Manager State P Resources) (modes : List (Mode P))
    (steps : Nat) (sols : List (Solution State Resources))
    (timer : Timer) (pc : Nat) (h1 : steps ≠ 0) (h2 : modes ≠ []) :
    extend_solutions sw mgr modes steps sols timer pc =
      .ok (extend_loop sw mgr modes steps timer sols pc) := by
  unfold extend_solutions
  have h2b : modes.isEmpty = false := by
    cases modes with
    | nil => exact absurd rfl h2
    | cons m ms => rfl
  simp [h1, h2b]

theorem single_iteration_ok (alg : SearchAlgorithm)
    (mgr : Manager State P Resources) (ops : ResOps Resources)
    (modes : List (Mode P)) (steps : Nat)
    (pending accepted : List (Solution State Resources))
    (timer : Timer) (pc : Nat) (h1 : steps ≠ 0) (h2 : modes ≠ []) :
    ∃ v, perform_search_single_iteration alg mgr ops modes steps pending
        accepted timer pc = .ok v := by
  unfold perform_search_single_iteration
  have h2b : modes.isEmpty = false := by
    cases modes with
    | nil => exact absurd rfl h2
    | cons m ms => rfl
  by_cases halg : alg = SearchAlgorithm.SingleMachine
  · rw [extend_solutions_ok SwitchingMode.None mgr modes steps pending timer pc h1 h2]
    simp [h1, h2b, halg]
  · rw [extend_solutions_ok SwitchingMode.Free mgr modes steps pending timer pc h1 h2]
    simp [h1, h2b, halg]

theorem iteration_loop_ok (alg : SearchAlgorithm)
    (mgr : Manager State P Resources) (ops : ResOps Resources)
    (modes : List (Mode P)) (steps : Nat) (timer : Timer)
    (h1 : steps ≠ 0) (h2 : modes ≠ []) :
    ∀ (fuel iteration : Nat)
      (pending accepted : List (Solution State Resources)) (pc : Nat),
      ∃ v, search_iteration_loop alg mgr ops modes steps timer fuel iteration
          pending accepted pc = .ok v
  | 0, iteration, pending, accepted, pc => ⟨(iteration, accepted, pc), rfl⟩
  | fuel + 1, iteration, pending, accepted, pc => by
    unfold search_iteration_loop
    by_cases hp : pending.isEmpty
    · exact ⟨(iteration, accepted, pc), by simp [hp]⟩
    · obtain ⟨v, hv⟩ :=
        single_iteration_ok alg mgr ops modes steps pending accepted timer pc h1 h2
      rw [hv]
      simp only [hp, if_false]
      by_cases ht : timer v.2.2 = true
      · exact ⟨(iteration + 1, v.2.1, v.2.2 + 1), by simp [ht]⟩
      · obtain ⟨w, hw⟩ :=
          iteration_loop_ok alg mgr ops modes steps timer h1 h2 fuel
            (iteration + 1) v.1 v.2.1 (v.2.2 + 1)
        refine ⟨w, ?_⟩
        simp only [ht, if_false]
        exact hw

theorem n_iterations_ok (alg : SearchAlgorithm)
    (mgr : Manager State P Resources) (ops : ResOps Resources)
    (modes : List (Mode P)) (steps : Nat)
    (front : ParetoFront State Resources) (timer : Timer) (pc : Nat)
    (h1 : steps ≠ 0) (h2 : modes ≠ []) :
    ∃ v, perform_search_n_iterations alg mgr ops modes steps front timer pc =
        .ok v := by
  unfold perform_search_n_iterations
  have h2b : modes.isEmpty = false := by
    cases modes with
    | nil => exact absurd rfl h2
    | cons m ms => rfl
  obtain ⟨⟨it, acc2, pco⟩, hv⟩ :=
    iteration_loop_ok alg mgr ops modes steps timer h1 h2
      (max_iterations_of mgr steps) 0 (seed_solutions mgr ops modes)
      front.solutions pc
  refine
    ⟨({ solutions := acc2, step_length := mgr.time_delta * (steps : Rat),
        steps_per_iteration := steps, iteration := it, runtime := 0 }, pco), ?_⟩
  simp [h1, h2b, hv]

theorem stride_loop_ok (alg : SearchAlgorithm)
    (mgr : Manager State P Resources) (ops : ResOps Resources)
    (modes : List (Mode P)) (timer : Timer) (keys : Nat → KeyChoice)
    (h2 : modes ≠ []) :
    ∀ (fuel s : Nat) (front : ParetoFront State Resources)
      (acc : List (ParetoFront State Resources)) (disable : Bool) (pc ki : Nat),
      ∃ v, stride_loop alg mgr ops modes timer keys fuel s front acc disable
          pc ki = .ok v
  | 0, s, front, acc, disable, pc, ki => ⟨acc, rfl⟩
  | fuel + 1, s, front, acc, disable, pc, ki => by
    unfold stride_loop
    by_cases hs : 1 ≤ s
    · obtain ⟨v, hv⟩ :=
        n_iterations_ok alg mgr ops modes s front timer pc
          (Nat.pos_iff_ne_zero.mp hs) h2
      rw [hv]
      simp only [hs, if_true]
      by_cases ht : timer v.2 = true
      · exact
          ⟨if v.1.solutions.isEmpty then acc else acc ++ [{ v.1 with runtime := 0 }],
            by simp [ht]⟩
      · obtain ⟨w, hw⟩ :=
          stride_loop_ok alg mgr ops modes timer keys h2 fuel
            ((interactive_step disable mgr.interactive keys ki s).1 / 2) v.1
            (if v.1.solutions.isEmpty then acc else acc ++ [{ v.1 with runtime := 0 }])
            (interactive_step disable mgr.interactive keys ki s).2.1 (v.2 + 1)
            (interactive_step disable mgr.interactive keys ki s).2.2
        refine ⟨w, ?_⟩
        simp only [ht, if_false]
        exact hw
    · exact ⟨acc, by simp [hs]⟩

/-- Claim C5 (amended): a timeout is never surfaced to the caller as an
error: for every manager, timer and key oracle, `perform_search` with a
non-empty mode list and a positive iteration count returns `Except.ok` with
the Result accumulated so far.  (The Result is not necessarily empty when
the timeout is shorter than one iteration: see the counterexample.) -/
theorem claim_C5_timeout_never_an_error (alg : SearchAlgorithm)
    (mgr : Manager State P Resources) (ops : ResOps Resources)
    (modes : List (Mode P)) (iterations : Nat)
    (timer : Timer) (keys : Nat → KeyChoice)
    (h2 : modes ≠ []) (h3 : iterations ≠ 0) :
    ∃ r, perform_search alg mgr ops modes iterations timer keys = .ok r := by
  unfold perform_search
  obtain ⟨v, hv⟩ :=
    stride_loop_ok alg mgr ops modes timer keys h2
      (init_stride alg iterations) (init_stride alg iterations) empty_front []
      false 0 0
  refine ⟨{ pareto_fronts := v }, ?_⟩
  simp only [h3, if_false]
  rw [hv]

/-- Claim C5 witness: the concrete toy search with an already-expired timer
returns `ok`. -/
theorem claim_C5_timeout_never_an_error_witness :
    toyModes ≠ [] ∧ (2 : Nat) ≠ 0 ∧
      ∃ r, perform_search SearchAlgorithm.Exhaustive toyMgr resOpsQ toyModes 2
          timerAlways keysC = .ok r :=
  ⟨by decide, by decide,
    claim_C5_timeout_never_an_error SearchAlgorithm.Exhaustive toyMgr resOpsQ
      toyModes 2 timerAlways keysC (by decide) (by decide)⟩

unseal Rat.add Rat.mul Rat.inv Rat.sub in
/-- Claim C5 counterexample: with a timer whose timeout fired before the
very first poll (a timeout smaller than the duration of any iteration), the
concrete toy search still returns a Result with one (non-empty) Pareto
front, because the first iteration completes before the timeout is polled:
the claim that such a call returns an empty Result is false. -/
theorem claim_C5_counterexample :
    result_front_count
      (perform_search SearchAlgorithm.Exhaustive toyMgr resOpsQ toyModes 2
        timerAlways keysC) = 1 := by
  decide

theorem add_mode_all_times_pos (m : Nat) :
    ∀ (s : List ModeExecution), (∀ e ∈ s, 1 ≤ e.times) →
      ∀ e ∈ add_mode_execution_to_sequence m s, 1 ≤ e.times
  | [], _ => by
    intro e he
    simp only [add_mode_execution_to_sequence, List.mem_singleton] at he
    subst he
    exact Nat.le_refl 1
  | [x], h => by
    intro e he
    unfold add_mode_execution_to_sequence at he
    by_cases hm : x.mode = m
    · simp only [hm, if_true] at he
      simp only [List.mem_singleton] at he
      subst he
      exact Nat.le_add_left 1 x.times
    · simp only [hm, if_false] at he
      rcases List.mem_pair.mp he with h1 | h1
      · subst h1
        exact h _ (List.mem_singleton_self _)
      · subst h1
        exact Nat.le_refl 1
  | x :: y :: rest, h => by
    intro e he
    unfold add_mode_execution_to_sequence at he
    rcases List.mem_cons.mp he with h1 | h1
    · subst h1
      exact h _ (List.mem_cons_self _ _)
    · exact
        add_mode_all_times_pos m (y :: rest)
          (fun z hz => h z (List.mem_cons_of_mem x hz)) e h1

theorem add_mode_tail_times_pos (m : Nat) :
    ∀ (s : List ModeExecution), (∀ e ∈ s.drop 1, 1 ≤ e.times) →
      ∀ e ∈ (add_mode_execution_to_sequence m s).drop 1, 1 ≤ e.times
  | [], _ => by
    intro e he
    simp [add_mode_execution_to_sequence] at he
  | [x], _ => by
    intro e he
    unfold add_mode_execution_to_sequence at he
    by_cases hm : x.mode = m
    · simp [hm] at he
    · simp only [hm, if_false, List.drop_succ_cons, List.drop_zero] at he
      simp only [List.mem_singleton] at he
      subst he
      exact Nat.le_refl 1
  | x :: y :: rest, h => by
    intro e he
    unfold add_mode_execution_to_sequence at he
    simp only [List.drop_succ_cons, List.drop_zero] at he
    have hall : ∀ z ∈ y :: rest, 1 ≤ z.times := by
      intro z hz
      exact h z (by simpa using hz)
    exact add_mode_all_times_pos m (y :: rest) hall e he

theorem add_mode_head_mode (m : Nat) (y : ModeExecution)
    (l : List ModeExecution) :
    ∃ t l2, add_mode_execution_to_sequence m (y :: l) = ⟨y.mode, t⟩ :: l2 := by
  cases l with
  | nil =>
    unfold add_mode_execution_to_sequence
    by_cases hm : y.mode = m
    · exact ⟨y.times + 1, [], by simp [hm]⟩
    · exact ⟨y.times, [⟨m, 1⟩], by simp [hm]⟩
  | cons z rest =>
    exact ⟨y.times, add_mode_execution_to_sequence m (z :: rest), rfl⟩

theorem add_mode_chain (m : Nat) :
    ∀ (s : List ModeExecution),
      List.Chain' (fun a b => a.mode ≠ b.mode) s →
      List.Chain' (fun a b => a.mode ≠ b.mode)
        (add_mode_execution_to_sequence m s)
  | [], _ => List.chain'_singleton _
  | [x], _ => by
    unfold add_mode_execution_to_sequence
    by_cases hm : x.mode = m
    · simp only [hm, if_true]
      exact List.chain'_singleton _
    · simp only [hm, if_false]
      exact List.chain'_cons.mpr ⟨hm, List.chain'_singleton _⟩
  | x :: y :: rest, h => by
    unfold add_mode_execution_to_sequence
    obtain ⟨hxy, htail⟩ := List.chain'_cons.mp h
    have tail2 := add_mode_chain m (y :: rest) htail
    obtain ⟨t, l2, heq⟩ := add_mode_head_mode m y rest
    rw [heq] at tail2 ⊢
    exact List.chain'_cons.mpr ⟨hxy, tail2⟩

theorem fsz_loop_sequence (mgr : Manager State P Resources)
    (previous current : Solution State Resources) (step_size : Rat) :
    ∀ (fuel k : Nat),
      (fsz_loop mgr previous current step_size fuel k).sequence =
          previous.sequence ∨
        (fsz_loop mgr previous current step_size fuel k).sequence =
          current.sequence
  | 0, _ => Or.inr rfl
  | fuel + 1, k => by
    unfold fsz_loop
    by_cases ht : ((k : Rat) * step_size) ≤ mgr.time_delta
    · simp only [ht, if_true]
      by_cases hc :
          mgr.is_complete
            { previous with
              resources :=
                mgr.interpolate_resources previous.resources current.resources
                  ((k : Rat) * step_size / mgr.time_delta)
              state :=
                mgr.interpolate_state previous.state current.state
                  ((k : Rat) * step_size / mgr.time_delta) } = true
      · simp [hc]
      · simp only [hc, if_false]
        exact fsz_loop_sequence mgr previous current step_size fuel (k + 1)
    · simp [ht]

theorem find_closest_sequence (mgr : Manager State P Resources)
    (previous current : Solution State Resources) :
    (find_solution_closest_to_zero mgr previous current).sequence =
        previous.sequence ∨
      (find_solution_closest_to_zero mgr previous current).sequence =
        current.sequence :=
  fsz_loop_sequence mgr previous current _ _ 0

theorem simulate_mode_loop_pres (Q : List ModeExecution → Prop)
    (mgr : Manager State P Resources) (mode : Mode P)
    (hadd : ∀ m s, Q s → Q (add_mode_execution_to_sequence m s))
    (hseq : ∀ sol m, (mgr.updated_solution sol m).sequence = sol.sequence) :
    ∀ (steps : Nat) (sol : Solution State Resources), Q sol.sequence →
      Q (simulate_mode_loop mgr mode steps sol).sequence
  | 0, sol, h => h
  | steps + 1, sol, h => by
    unfold simulate_mode_loop
    have happ :
        Q (add_mode_execution_to_sequence mode.id
            (mgr.updated_solution sol mode).sequence) := by
      rw [hseq sol mode]
      exact hadd mode.id sol.sequence h
    by_cases hc :
        mgr.is_complete
          { mgr.updated_solution sol mode with
            sequence :=
              add_mode_execution_to_sequence mode.id
                (mgr.updated_solution sol mode).sequence } = true
    · simp only [hc, if_true]
      rcases find_closest_sequence mgr sol
          { mgr.updated_solution sol mode with
            sequence :=
              add_mode_execution_to_sequence mode.id
                (mgr.updated_solution sol mode).sequence } with hcase | hcase
      · rw [hcase]
        exact h
      · rw [hcase]
        exact happ
    · simp only [hc, if_false]
      exact
        simulate_mode_loop_pres Q mgr mode hadd hseq steps _ happ

theorem extend_children_pres (Q : List ModeExecution → Prop)
    (sw : SwitchingMode) (mgr : Manager State P Resources)
    (modes : List (Mode P)) (steps : Nat) (sol : Solution State Resources)
    (hadd : ∀ m s, Q s → Q (add_mode_execution_to_sequence m s))
    (hseq : ∀ s m, (mgr.updated_solution s m).sequence = s.sequence)
    (hsol : Q sol.sequence) :
    ∀ y ∈ extend_children sw mgr modes steps sol, Q y.sequence := by
  intro y hy
  cases sw with
  | Free =>
    simp only [extend_children, List.mem_map] at hy
    obtain ⟨mode, _, hmode⟩ := hy
    rw [← hmode]
    exact simulate_mode_loop_pres Q mgr mode hadd hseq steps sol hsol
  | Increasing =>
    simp only [extend_children] at hy
    cases hlast : sol.sequence.getLast? with
    | none => simp [hlast] at hy
    | some last =>
      rw [hlast] at hy
      simp only [List.mem_filterMap] at hy
      obtain ⟨i, _, hi⟩ := hy
      cases hget : modes.get? i with
      | none =>
        rw [hget] at hi
        simp at hi
      | some mode =>
        rw [hget] at hi
        simp only [Option.map_some'] at hi
        rw [← Option.some_inj.mp hi]
        exact simulate_mode_loop_pres Q mgr mode hadd hseq steps sol hsol
  | None =>
    simp only [extend_children] at hy
    cases hlast : sol.sequence.getLast? with
    | none => simp [hlast] at hy
    | some last =>
      rw [hlast] at hy
      have hy2 :
          y ∈
            (match modes.get? last.mode with
              | some mode => [simulate_mode_loop mgr mode steps sol]
              | none => []) := hy
      cases hget : modes.get? last.mode with
      | none =>
        rw [hget] at hy2
        simp at hy2
      | some mode =>
        rw [hget] at hy2
        simp only [List.mem_singleton] at hy2
        subst hy2
        exact simulate_mode_loop_pres Q mgr mode hadd hseq steps sol hsol

theorem extend_loop_pres (Q : List ModeExecution → Prop)
    (sw : SwitchingMode) (mgr : Manager State P Resources)
    (modes : List (Mode P)) (steps : Nat) (timer : Timer)
    (hadd : ∀ m s, Q s → Q (add_mode_execution_to_sequence m s))
    (hseq : ∀ s m, (mgr.updated_solution s m).sequence = s.sequence) :
    ∀ (sols : List (Solution State Resources)) (pc : Nat),
      (∀ sol ∈ sols, Q sol.sequence) →
      ∀ y ∈ (extend_loop sw mgr modes steps timer sols pc).1, Q y.sequence
  | [], _, _ => by
    intro y hy
    simp [extend_loop] at hy
  | sol :: rest, pc, h => by
    intro y hy
    unfold extend_loop at hy
    have hhead := h sol (List.mem_cons_self sol rest)
    have hchild :=
      extend_children_pres Q sw mgr modes steps sol hadd hseq hhead
    by_cases ht : timer pc = true
    · simp only [ht, if_true] at hy
      exact hchild y hy
    · simp only [ht, if_false] at hy
      rcases List.mem_append.mp hy with h1 | h1
      · exact hchild y h1
      · exact
          extend_loop_pres Q sw mgr modes steps timer hadd hseq rest (pc + 1)
            (fun z hz => h z (List.mem_cons_of_mem sol hz)) y h1

theorem mem_remove_dominated (alg : SearchAlgorithm)
    (mgr : Manager State P Resources)
    (sols refs : List (Solution State Resources))
    (y : Solution State Resources)
    (hy : y ∈ remove_dominated_solutions alg mgr sols refs) : y ∈ sols := by
  unfold remove_dominated_solutions at hy
  by_cases h : refs.isEmpty
  · rw [if_pos h] at hy
    exact hy
  · rw [if_neg h] at hy
    exact List.mem_of_mem_filter hy

theorem mem_of_mem_enum {α : Type} :
    ∀ (l : List α) (n : Nat) (p : Nat × α), p ∈ l.enumFrom n → p.2 ∈ l
  | [], _, _, h => by simp [List.enumFrom] at h
  | x :: xs, n, p, h => by
    simp only [List.enumFrom, List.mem_cons] at h
    rcases h with h | h
    · subst h
      exact List.mem_cons_self x xs
    · exact List.mem_cons_of_mem x (mem_of_mem_enum xs (n + 1) p h)

theorem mem_remove_dominated_self (alg : SearchAlgorithm)
    (mgr : Manager State P Resources)
    (sols : List (Solution State Resources)) (y : Solution State Resources)
    (hy : y ∈ remove_dominated_solutions_self alg mgr sols) : y ∈ sols := by
  unfold remove_dominated_solutions_self at hy
  by_cases h : sols.isEmpty
  · rw [if_pos h] at hy
    exact hy
  · rw [if_neg h] at hy
    simp only [List.mem_map] at hy
    obtain ⟨p, hp, hpy⟩ := hy
    have hp2 := List.mem_of_mem_filter hp
    rw [← hpy]
    exact mem_of_mem_enum sols 0 p hp2

theorem mem_ordered_insert_lt {α : Type} (lt : α → α → Bool) (x : α) :
    ∀ (l : List α) (y : α), y ∈ ordered_insert_lt lt x l → y = x ∨ y ∈ l
  | [], y, h => by
    simp only [ordered_insert_lt, List.mem_singleton] at h
    exact Or.inl h
  | z :: zs, y, h => by
    unfold ordered_insert_lt at h
    by_cases hlt : lt x z = true
    · rw [if_pos hlt] at h
      rcases List.mem_cons.mp h with h1 | h1
      · exact Or.inl h1
      · exact Or.inr h1
    · rw [if_neg hlt] at h
      rcases List.mem_cons.mp h with h1 | h1
      · exact Or.inr (h1 ▸ List.mem_cons_self z zs)
      · rcases mem_ordered_insert_lt lt x zs y h1 with h2 | h2
        · exact Or.inl h2
        · exact Or.inr (List.mem_cons_of_mem z h2)

theorem mem_sort_by_lt {α : Type} (lt : α → α → Bool) :
    ∀ (l : List α) (y : α), y ∈ sort_by_lt lt l → y ∈ l
  | [], y, h => by simp [sort_by_lt] at h
  | x :: xs, y, h => by
    unfold sort_by_lt at h
    rcases mem_ordered_insert_lt lt x (sort_by_lt lt xs) y h with h1 | h1
    · exact h1 ▸ List.mem_cons_self x xs
    · exact List.mem_cons_of_mem x (mem_sort_by_lt lt xs y h1)

theorem mem_unique_adjacent_go {α : Type} (eq : α → α → Bool) :
    ∀ (l : List α) (last y : α), y ∈ unique_adjacent_go eq last l → y ∈ l
  | [], _, y, h => by simp [unique_adjacent_go] at h
  | z :: zs, last, y, h => by
    unfold unique_adjacent_go at h
    by_cases heq : eq last z = true
    · rw [if_pos heq] at h
      exact List.mem_cons_of_mem z (mem_unique_adjacent_go eq zs last y h)
    · rw [if_neg heq] at h
      rcases List.mem_cons.mp h with h1 | h1
      · exact h1 ▸ List.mem_cons_self z zs
      · exact List.mem_cons_of_mem z (mem_unique_adjacent_go eq zs z y h1)

theorem mem_unique_adjacent {α : Type} (eq : α → α → Bool)
    (l : List α) (y : α) (hy : y ∈ unique_adjacent eq l) : y ∈ l := by
  cases l with
  | nil => simp [unique_adjacent] at hy
  | cons x xs =>
    unfold unique_adjacent at hy
    rcases List.mem_cons.mp hy with h1 | h1
    · exact h1 ▸ List.mem_cons_self x xs
    · exact List.mem_cons_of_mem x (mem_unique_adjacent_go eq xs x y h1)

theorem mem_remove_duplicate (ops : ResOps Resources)
    (sols : List (Solution State Resources)) (y : Solution State Resources)
    (hy : y ∈ remove_duplicate_solutions ops sols) : y ∈ sols :=
  mem_sort_by_lt (solution_lt ops) sols y
    (mem_unique_adjacent (solution_eq ops) _ y hy)

/-- The switching mode chosen by the single iteration for each algorithm
(search/search.hpp lines 60-64). -/
def si_switch (alg : SearchAlgorithm) : SwitchingMode :=
  if alg = SearchAlgorithm.SingleMachine then SwitchingMode.None
  else SwitchingMode.Free

/-- The value computed by a successful `perform_search_single_iteration`
call: new pending set, new accepted set, advanced poll counter. -/
def si_parts (alg : SearchAlgorithm)
    (mgr : Manager State P Resources) (ops : ResOps Resources)
    (modes : List (Mode P)) (steps : Nat)
    (pending accepted : List (Solution State Resources))
    (timer : Timer) (pc : Nat) :
    List (Solution State Resources) × List (Solution State Resources) × Nat :=
  let ext := extend_loop (si_switch alg) mgr modes steps timer pending pc
  let extended2 :=
    remove_dominated_solutions SearchAlgorithm.Exhaustive mgr ext.1 accepted
  let split := split_complete_and_incomplete mgr extended2 [] []
  let accepted2 :=
    if split.1.isEmpty then accepted
    else
      remove_duplicate_solutions ops
        (remove_dominated_solutions_self SearchAlgorithm.Exhaustive mgr
          (move_elements split.1 accepted))
  let pendingOut :=
    if alg = SearchAlgorithm.Heuristic then
      remove_dominated_solutions SearchAlgorithm.Heuristic mgr split.2 split.2
    else split.2
  (pendingOut, accepted2, ext.2)

theorem single_iteration_eq (alg : SearchAlgorithm)
    (mgr : Manager State P Resources) (ops : ResOps Resources)
    (modes : List (Mode P)) (steps : Nat)
    (pending accepted : List (Solution State Resources))
    (timer : Timer) (pc : Nat) (h1 : steps ≠ 0) (h2 : modes ≠ []) :
    perform_search_single_iteration alg mgr ops modes steps pending accepted
        timer pc =
      .ok (si_parts alg mgr ops modes steps pending accepted timer pc) := by
  have h2b : modes.isEmpty = false := by
    cases modes with
    | nil => exact absurd rfl h2
    | cons m ms => rfl
  unfold perform_search_single_iteration si_parts si_switch
  by_cases halg : alg = SearchAlgorithm.SingleMachine
  · subst halg
    rw [extend_solutions_ok SwitchingMode.None mgr modes steps pending timer pc h1 h2]
    simp [h1, h2b]
  · simp only [halg, if_false]
    rw [extend_solutions_ok SwitchingMode.Free mgr modes steps pending timer pc h1 h2]
    simp [h1, h2b, halg]

theorem mem_split_complete (mgr : Manager State P Resources)
    (xs c0 p0 : List (Solution State Resources))
    (y : Solution State Resources)
    (hy : y ∈ (split_complete_and_incomplete mgr xs c0 p0).1) :
    y ∈ c0 ∨ y ∈ xs := by
  unfold split_complete_and_incomplete at hy
  rcases List.mem_append.mp hy with h | h
  · exact Or.inl h
  · rw [List.partition_eq_filter_filter] at h
    exact Or.inr (List.mem_of_mem_filter h)

theorem mem_split_incomplete (mgr : Manager State P Resources)
    (xs c0 p0 : List (Solution State Resources))
    (y : Solution State Resources)
    (hy : y ∈ (split_complete_and_incomplete mgr xs c0 p0).2) :
    y ∈ p0 ∨ y ∈ xs := by
  unfold split_complete_and_incomplete at hy
  rcases List.mem_append.mp hy with h | h
  · exact Or.inl h
  · rw [List.partition_eq_filter_filter] at h
    exact Or.inr (List.mem_of_mem_filter h)

theorem si_parts_pres (Q : List ModeExecution → Prop) (alg : SearchAlgorithm)
    (mgr : Manager State P Resources) (ops : ResOps Resources)
    (modes : List (Mode P)) (steps : Nat)
    (pending accepted : List (Solution State Resources))
    (timer : Timer) (pc : Nat)
    (hadd : ∀ m s, Q s → Q (add_mode_execution_to_sequence m s))
    (hseq : ∀ s m, (mgr.updated_solution s m).sequence = s.sequence)
    (hp : ∀ sol ∈ pending, Q sol.sequence)
    (ha : ∀ sol ∈ accepted, Q sol.sequence) :
    (∀ sol ∈ (si_parts alg mgr ops modes steps pending accepted timer pc).1,
        Q sol.sequence) ∧
      (∀ sol ∈ (si_parts alg mgr ops modes steps pending accepted timer pc).2.1,
        Q sol.sequence) := by
  have hext :
      ∀ y ∈ (extend_loop (si_switch alg) mgr modes steps timer pending pc).1,
        Q y.sequence :=
    extend_loop_pres Q (si_switch alg) mgr modes steps timer hadd hseq pending
      pc hp
  have hext2 :
      ∀ y ∈
        remove_dominated_solutions SearchAlgorithm.Exhaustive mgr
          (extend_loop (si_switch alg) mgr modes steps timer pending pc).1
          accepted,
        Q y.sequence := by
    intro y hy
    exact hext y (mem_remove_dominated _ mgr _ accepted y hy)
  constructor
  · intro sol hsol
    unfold si_parts at hsol
    dsimp only at hsol
    split at hsol
    · have h3 := mem_remove_dominated _ mgr _ _ sol hsol
      rcases mem_split_incomplete mgr _ [] [] sol h3 with h4 | h4
      · simp at h4
      · exact hext2 sol h4
    · rcases mem_split_incomplete mgr _ [] [] sol hsol with h4 | h4
      · simp at h4
      · exact hext2 sol h4
  · intro sol hsol
    unfold si_parts at hsol
    dsimp only at hsol
    split at hsol
    · exact ha sol hsol
    · have h3 := mem_remove_duplicate ops _ sol hsol
      have h4 := mem_remove_dominated_self _ mgr _ sol h3
      unfold move_elements at h4
      rcases List.mem_append.mp h4 with h5 | h5
      · exact ha sol h5
      · rcases mem_split_complete mgr _ [] [] sol h5 with h6 | h6
        · simp at h6
        · exact hext2 sol h6

theorem iteration_loop_pres (Q : List ModeExecution → Prop)
    (alg : SearchAlgorithm) (mgr : Manager State P Resources)
    (ops : ResOps Resources) (modes : List (Mode P)) (steps : Nat)
    (timer : Timer) (h1 : steps ≠ 0) (h2 : modes ≠ [])
    (hadd : ∀ m s, Q s → Q (add_mode_execution_to_sequence m s))
    (hseq : ∀ s m, (mgr.updated_solution s m).sequence = s.sequence) :
    ∀ (fuel iteration : Nat)
      (pending accepted : List (Solution State Resources)) (pc : Nat)
      (out : Nat × List (Solution State Resources) × Nat),
      (∀ sol ∈ pending, Q sol.sequence) →
      (∀ sol ∈ accepted, Q sol.sequence) →
      search_iteration_loop alg mgr ops modes steps timer fuel iteration
          pending accepted pc = .ok out →
      ∀ sol ∈ out.2.1, Q sol.sequence
  | 0, iteration, pending, accepted, pc, out, _, ha, hout => by
    unfold search_iteration_loop at hout
    cases hout
    exact ha
  | fuel + 1, iteration, pending, accepted, pc, out, hp, ha, hout => by
    unfold search_iteration_loop at hout
    by_cases hpe : pending.isEmpty
    · rw [if_pos hpe] at hout
      cases hout
      exact ha
    · rw [if_neg hpe] at hout
      rw [single_iteration_eq alg mgr ops modes steps pending accepted timer pc
        h1 h2] at hout
      have hpres :=
        si_parts_pres Q alg mgr ops modes steps pending accepted timer pc hadd
          hseq hp ha
      rcases hval : si_parts alg mgr ops modes steps pending accepted timer pc
        with ⟨p2, a2, pc2⟩
      rw [hval] at hout hpres
      dsimp only at hout hpres
      by_cases ht : timer pc2 = true
      · rw [if_pos ht] at hout
        cases hout
        exact hpres.2
      · rw [if_neg ht] at hout
        exact
          iteration_loop_pres Q alg mgr ops modes steps timer h1 h2 hadd hseq
            fuel (iteration + 1) p2 a2 (pc2 + 1) out hpres.1 hpres.2 hout

theorem n_iterations_pres (Q : List ModeExecution → Prop)
    (alg : SearchAlgorithm) (mgr : Manager State P Resources)
    (ops : ResOps Resources) (modes : List (Mode P)) (steps : Nat)
    (front : ParetoFront State Resources) (timer : Timer) (pc : Nat)
    (v : ParetoFront State Resources × Nat)
    (h1 : steps ≠ 0) (h2 : modes ≠ [])
    (hadd : ∀ m s, Q s → Q (add_mode_execution_to_sequence m s))
    (hseq : ∀ s m, (mgr.updated_solution s m).sequence = s.sequence)
    (hseed : ∀ m, Q [⟨m, 0⟩])
    (hfront : ∀ sol ∈ front.solutions, Q sol.sequence)
    (hok : perform_search_n_iterations alg mgr ops modes steps front timer pc =
      .ok v) :
    ∀ sol ∈ v.1.solutions, Q sol.sequence := by
  have h2b : modes.isEmpty = false := by
    cases modes with
    | nil => exact absurd rfl h2
    | cons m ms => rfl
  unfold perform_search_n_iterations at hok
  rw [if_neg h1] at hok
  rw [h2b] at hok
  simp only [Bool.false_eq_true, if_false] at hok
  have hseeds : ∀ sol ∈ seed_solutions mgr ops modes, Q sol.sequence := by
    intro sol hsol
    unfold seed_solutions at hsol
    simp only [List.mem_map] at hsol
    obtain ⟨mode, _, hmode⟩ := hsol
    rw [← hmode]
    exact hseed mode.id
  cases hloop :
      search_iteration_loop alg mgr ops modes steps timer
        (max_iterations_of mgr steps) 0 (seed_solutions mgr ops modes)
        front.solutions pc with
  | error e =>
    rw [hloop] at hok
    cases hok
  | ok w =>
    rw [hloop] at hok
    obtain ⟨it, acc2, pco⟩ := w
    cases hok
    exact
      iteration_loop_pres Q alg mgr ops modes steps timer h1 h2 hadd hseq
        (max_iterations_of mgr steps) 0 (seed_solutions mgr ops modes)
        front.solutions pc (it, acc2, pco) hseeds hfront hloop

theorem stride_loop_pres (Q : List ModeExecution → Prop)
    (alg : SearchAlgorithm) (mgr : Manager State P Resources)
    (ops : ResOps Resources) (modes : List (Mode P)) (timer : Timer)
    (keys : Nat → KeyChoice) (h2 : modes ≠ [])
    (hadd : ∀ m s, Q s → Q (add_mode_execution_to_sequence m s))
    (hseq : ∀ s m, (mgr.updated_solution s m).sequence = s.sequence)
    (hseed : ∀ m, Q [⟨m, 0⟩]) :
    ∀ (fuel s : Nat) (front : ParetoFront State Resources)
      (acc : List (ParetoFront State Resources)) (disable : Bool) (pc ki : Nat)
      (v : List (ParetoFront State Resources)),
      (∀ sol ∈ front.solutions, Q sol.sequence) →
      (∀ f ∈ acc, ∀ sol ∈ f.solutions, Q sol.sequence) →
      stride_loop alg mgr ops modes timer keys fuel s front acc disable pc ki =
        .ok v →
      ∀ f ∈ v, ∀ sol ∈ f.solutions, Q sol.sequence
  | 0, s, front, acc, disable, pc, ki, v, _, hacc, hout => by
    unfold stride_loop at hout
    cases hout
    exact hacc
  | fuel + 1, s, front, acc, disable, pc, ki, v, hfront, hacc, hout => by
    unfold stride_loop at hout
    by_cases hs : 1 ≤ s
    · rw [if_pos hs] at hout
      cases hnit :
          perform_search_n_iterations alg mgr ops modes s front timer pc with
      | error e =>
        rw [hnit] at hout
        cases hout
      | ok w =>
        rw [hnit] at hout
        obtain ⟨front2, pc2⟩ := w
        dsimp only at hout
        have hw : ∀ sol ∈ front2.solutions, Q sol.sequence :=
          n_iterations_pres Q alg mgr ops modes s front timer pc (front2, pc2)
            (Nat.pos_iff_ne_zero.mp hs) h2 hadd hseq hseed hfront hnit
        have hacc2 :
            ∀ f ∈
              (if front2.solutions.isEmpty then acc
                else acc ++ [{ front2 with runtime := 0 }]),
              ∀ sol ∈ f.solutions, Q sol.sequence := by
          by_cases hwe : front2.solutions.isEmpty
          · rw [if_pos hwe]
            exact hacc
          · rw [if_neg hwe]
            intro f hf
            rcases List.mem_append.mp hf with hf1 | hf1
            · exact hacc f hf1
            · rw [List.mem_singleton] at hf1
              subst hf1
              exact hw
        by_cases ht : timer pc2 = true
        · rw [if_pos ht] at hout
          cases hout
          exact hacc2
        · rw [if_neg ht] at hout
          exact
            stride_loop_pres Q alg mgr ops modes timer keys h2 hadd hseq hseed
              fuel _ front2 _ _ _ _ v hw hacc2 hout
    · rw [if_neg hs] at hout
      cases hout
      exact hacc

theorem perform_search_pres (Q : List ModeExecution → Prop)
    (alg : SearchAlgorithm) (mgr : Manager State P Resources)
    (ops : ResOps Resources) (modes : List (Mode P)) (iterations : Nat)
    (timer : Timer) (keys : Nat → KeyChoice) (r : Result State Resources)
    (h2 : modes ≠ [])
    (hadd : ∀ m s, Q s → Q (add_mode_execution_to_sequence m s))
    (hseq : ∀ s m, (mgr.updated_solution s m).sequence = s.sequence)
    (hseed : ∀ m, Q [⟨m, 0⟩])
    (hok : perform_search alg mgr ops modes iterations timer keys = .ok r) :
    ∀ f ∈ r.pareto_fronts, ∀ sol ∈ f.solutions, Q sol.sequence := by
  unfold perform_search at hok
  by_cases h3 : iterations = 0
  · rw [if_pos h3] at hok
    cases hok
  · rw [if_neg h3] at hok
    cases hloop :
        stride_loop alg mgr ops modes timer keys (init_stride alg iterations)
          (init_stride alg iterations) empty_front [] false 0 0 with
    | error e =>
      rw [hloop] at hok
      cases hok
    | ok v =>
      rw [hloop] at hok
      cases hok
      exact
        stride_loop_pres Q alg mgr ops modes timer keys h2 hadd hseq hseed
          (init_stride alg iterations) (init_stride alg iterations) empty_front
          [] false 0 0 v (by intro sol h; simp [empty_front] at h)
          (by intro f h; simp at h) hloop

theorem add_mode_spec (m : Nat) :
    ∀ (s : List ModeExecution),
      add_mode_execution_to_sequence m s =
        match s.getLast? with
        | none => [⟨m, 1⟩]
        | some e =>
          if e.mode = m then s.dropLast ++ [⟨e.mode, e.times + 1⟩]
          else s ++ [⟨m, 1⟩]
  | [] => rfl
  | [e] => by
    by_cases hm : e.mode = m <;>
      simp [add_mode_execution_to_sequence, hm]
  | e :: e2 :: rest => by
    have ih := add_mode_spec m (e2 :: rest)
    show e :: add_mode_execution_to_sequence m (e2 :: rest) = _
    rw [ih]
    cases hl : (e2 :: rest).getLast? with
    | none => simp at hl
    | some l =>
      simp only [List.getLast?_cons_cons, hl]
      by_cases hm : l.mode = m
      · simp [hm, List.dropLast_cons₂]
      · simp [hm]

/-- The run-length canonicity predicate of the spec: no two adjacent records
share a mode. -/
def run_length_canonical (s : List ModeExecution) : Prop :=
  List.Chain' (fun a b => a.mode ≠ b.mode) s

/-- Claim C8: `add_mode_execution_to_sequence` behaves as described (append
a fresh record with times 1 on an empty sequence or differing tail mode,
increment the tail otherwise), preserves run-length canonicity, and
consequently every solution of every front produced by `perform_search` has
a sequence in which no two adjacent records share a mode (for any manager
whose solution-update callback leaves the sequence field unchanged, as the
Manager contract requires). -/
theorem claim_C8_run_length_canonical (alg : SearchAlgorithm)
    (mgr : Manager State P Resources) (ops : ResOps Resources)
    (modes : List (Mode P)) (iterations : Nat) (timer : Timer)
    (keys : Nat → KeyChoice) (r : Result State Resources)
    (h2 : modes ≠ [])
    (hseq : ∀ s m, (mgr.updated_solution s m).sequence = s.sequence)
    (hok : perform_search alg mgr ops modes iterations timer keys = .ok r) :
    (∀ (m : Nat) (s : List ModeExecution),
        add_mode_execution_to_sequence m s =
          match s.getLast? with
          | none => [⟨m, 1⟩]
          | some e =>
            if e.mode = m then s.dropLast ++ [⟨e.mode, e.times + 1⟩]
            else s ++ [⟨m, 1⟩]) ∧
      (∀ (m : Nat) (s : List ModeExecution), run_length_canonical s →
        run_length_canonical (add_mode_execution_to_sequence m s)) ∧
      (∀ f ∈ r.pareto_fronts, ∀ sol ∈ f.solutions,
        run_length_canonical sol.sequence) := by
  refine ⟨fun m s => add_mode_spec m s, fun m s h => add_mode_chain m s h, ?_⟩
  exact
    perform_search_pres run_length_canonical alg mgr ops modes iterations timer
      keys r h2 (fun m s h => add_mode_chain m s h) hseq
      (fun m => List.chain'_singleton _) hok

instance {ε α : Type} [DecidableEq ε] [DecidableEq α] :
    DecidableEq (Except ε α) := fun a b =>
  match a, b with
  | .error e1, .error e2 =>
    if h : e1 = e2 then isTrue (by rw [h])
    else isFalse (by intro hh; cases hh; exact h rfl)
  | .error _, .ok _ => isFalse (by intro hh; cases hh)
  | .ok _, .error _ => isFalse (by intro hh; cases hh)
  | .ok a1, .ok a2 =>
    if h : a1 = a2 then isTrue (by rw [h])
    else isFalse (by intro hh; cases hh; exact h rfl)

/-- The concrete value returned by the toy search run (two iterations
requested, timer expired from the start). -/
def toyRunResult : Result Rat ResourcesQ :=
  { pareto_fronts :=
      [{ solutions :=
            [{ sequence := [⟨0, 0⟩, ⟨1, 1⟩]
               state := 31 / 20
               resources := ⟨31 / 20, 31 / 20⟩
               distance := 1 }]
         step_length := 2
         steps_per_iteration := 2
         iteration := 1
         runtime := 0 }] }

unseal Rat.add Rat.mul Rat.inv Rat.sub in
theorem toyRun_eq :
    perform_search SearchAlgorithm.Exhaustive toyMgr resOpsQ toyModes 2
        timerAlways keysC = .ok toyRunResult := by
  decide

/-- Claim C8 witness: the run-length statement instantiated on the concrete
toy run. -/
theorem claim_C8_run_length_canonical_witness :
    toyModes ≠ [] ∧
      (∀ f ∈ toyRunResult.pareto_fronts, ∀ sol ∈ f.solutions,
        run_length_canonical sol.sequence) :=
  ⟨by decide,
    (claim_C8_run_length_canonical SearchAlgorithm.Exhaustive toyMgr resOpsQ
        toyModes 2 timerAlways keysC toyRunResult (by decide)
        (fun _ _ => rfl) toyRun_eq).2.2⟩

/-- Claim C4 (amended): in every Result returned by `perform_search` (for a
manager whose update callback leaves the sequence field unchanged), every
run-length record beyond the first of each solution sequence has
`times >= 1`; the first record may keep the seed value `times = 0` when the
first extension switched to a different mode. -/
theorem claim_C4_tail_times_positive (alg : SearchAlgorithm)
    (mgr : Manager State P Resources) (ops : ResOps Resources)
    (modes : List (Mode P)) (iterations : Nat) (timer : Timer)
    (keys : Nat → KeyChoice) (r : Result State Resources)
    (h2 : modes ≠ [])
    (hseq : ∀ s m, (mgr.updated_solution s m).sequence = s.sequence)
    (hok : perform_search alg mgr ops modes iterations timer keys = .ok r) :
    ∀ f ∈ r.pareto_fronts, ∀ sol ∈ f.solutions,
      ∀ e ∈ sol.sequence.drop 1, 1 ≤ e.times := by
  exact
    perform_search_pres (fun s => ∀ e ∈ s.drop 1, 1 ≤ e.times) alg mgr ops
      modes iterations timer keys r h2
      (fun m s h => add_mode_tail_times_pos m s h) hseq
      (fun m => by intro e he; simp at he) hok

/-- Claim C4 witness: the amended statement instantiated on the concrete toy
run. -/
theorem claim_C4_tail_times_positive_witness :
    toyModes ≠ [] ∧
      (∀ f ∈ toyRunResult.pareto_fronts, ∀ sol ∈ f.solutions,
        ∀ e ∈ sol.sequence.drop 1, 1 ≤ e.times) :=
  ⟨by decide,
    claim_C4_tail_times_positive SearchAlgorithm.Exhaustive toyMgr resOpsQ
      toyModes 2 timerAlways keysC toyRunResult (by decide) (fun _ _ => rfl)
      toyRun_eq⟩

unseal Rat.add Rat.mul Rat.inv Rat.sub in
/-- Claim C4 counterexample: the Result of the concrete toy search contains
a solution whose sequence holds the record `(mode 0, times 0)` - the seed
record left untouched when the first extension used mode 1 - so the claim
that every record of every solution in a `perform_search` Result has
`times >= 1` is false. -/
theorem claim_C4_counterexample :
    result_has_zero_times
      (perform_search SearchAlgorithm.Exhaustive toyMgr resOpsQ toyModes 2
        timerAlways keysC) = true := by
  decide

/-- The step size of the bisection subsampling
(search/common.hpp lines 95-99). -/
def bisect_step_size (mgr : Manager State P Resources)
    (previous : Solution State Resources) : Rat :=
  mgr.time_delta / (10 * max 1 (|previous.distance| / mgr.threshold))

/-- The interpolated candidate inspected at step index `k` of the bisection
loop: resources and state interpolated at `relative = (k * step) / time_delta`
on a copy of the previous solution. -/
def bisect_candidate (mgr : Manager State P Resources)
    (previous current : Solution State Resources) (k : Nat) :
    Solution State Resources :=
  let rel := ((k : Rat) * bisect_step_size mgr previous) / mgr.time_delta
  { previous with
    resources := mgr.interpolate_resources previous.resources current.resources rel
    state := mgr.interpolate_state previous.state current.state rel }

/-- The number of interpolated candidates the loop visits: indices
`0 .. floor(time_delta / step_size)`. -/
def bisect_candidate_count (mgr : Manager State P Resources)
    (previous : Solution State Resources) : Nat :=
  (Rat.floor (mgr.time_delta / bisect_step_size mgr previous)).toNat + 1

/-- The behaviour the spec ascribes to the bisection: the first complete
interpolated candidate, or the current solution when none is complete. -/
def first_complete_candidate (mgr : Manager State P Resources)
    (previous current : Solution State Resources) :
    Solution State Resources :=
  (((List.range (bisect_candidate_count mgr previous)).map
      (bisect_candidate mgr previous current)).find?
    (fun sol => mgr.is_complete sol)).getD current

theorem bisect_step_size_pos (mgr : Manager State P Resources)
    (previous : Solution State Resources) (hd : 0 < mgr.time_delta) :
    0 < bisect_step_size mgr previous := by
  unfold bisect_step_size
  apply div_pos hd
  have h1 : (1 : Rat) ≤ max 1 (|previous.distance| / mgr.threshold) :=
    le_max_left 1 _
  nlinarith

theorem le_bisect_count_iff (mgr : Manager State P Resources)
    (previous : Solution State Resources) (hd : 0 < mgr.time_delta)
    (k : Nat) :
    k + 1 ≤ bisect_candidate_count mgr previous ↔
      (k : Rat) * bisect_step_size mgr previous ≤ mgr.time_delta := by
  have hstep := bisect_step_size_pos mgr previous hd
  unfold bisect_candidate_count
  have hnn : (0 : Int) ≤ Rat.floor (mgr.time_delta / bisect_step_size mgr previous) := by
    rw [Rat.le_floor]
    push_cast
    exact le_of_lt (div_pos hd hstep)
  constructor
  · intro h
    have h2 : k ≤ (Rat.floor (mgr.time_delta / bisect_step_size mgr previous)).toNat :=
      Nat.succ_le_succ_iff.mp h
    have h3 : (k : Int) ≤ Rat.floor (mgr.time_delta / bisect_step_size mgr previous) :=
      (Int.le_toNat hnn).mp h2
    have h4 : ((k : Int) : Rat) ≤ mgr.time_delta / bisect_step_size mgr previous :=
      Rat.le_floor.mp h3
    push_cast at h4
    exact (le_div_iff₀ hstep).mp h4
  · intro h
    have h4 : (k : Rat) ≤ mgr.time_delta / bisect_step_size mgr previous :=
      (le_div_iff₀ hstep).mpr h
    have h3 : (k : Int) ≤ Rat.floor (mgr.time_delta / bisect_step_size mgr previous) := by
      rw [Rat.le_floor]
      push_cast
      exact h4
    have h2 : k ≤ (Rat.floor (mgr.time_delta / bisect_step_size mgr previous)).toNat :=
      (Int.le_toNat hnn).mpr h3
    exact Nat.succ_le_succ h2

theorem fsz_loop_body (mgr : Manager State P Resources)
    (previous current : Solution State Resources) (fuel k : Nat) :
    fsz_loop mgr previous current (bisect_step_size mgr previous) (fuel + 1) k =
      if ((k : Rat) * bisect_step_size mgr previous) ≤ mgr.time_delta then
        (if mgr.is_complete (bisect_candidate mgr previous current k) then
          bisect_candidate mgr previous current k
        else
          fsz_loop mgr previous current (bisect_step_size mgr previous) fuel
            (k + 1))
      else current := rfl

theorem fsz_loop_eq_find (mgr : Manager State P Resources)
    (previous current : Solution State Resources)
    (hd : 0 < mgr.time_delta) :
    ∀ (fuel k : Nat), bisect_candidate_count mgr previous ≤ k + fuel →
      fsz_loop mgr previous current (bisect_step_size mgr previous) fuel k =
        (((List.range' k (bisect_candidate_count mgr previous - k)).map
            (bisect_candidate mgr previous current)).find?
          (fun sol => mgr.is_complete sol)).getD current
  | 0, k, hfuel => by
    have h0 : bisect_candidate_count mgr previous - k = 0 := by omega
    rw [h0]
    simp [fsz_loop, List.range']
  | fuel + 1, k, hfuel => by
    rw [fsz_loop_body]
    by_cases ht :
        ((k : Rat) * bisect_step_size mgr previous) ≤ mgr.time_delta
    · have hk : k + 1 ≤ bisect_candidate_count mgr previous :=
        (le_bisect_count_iff mgr previous hd k).mpr ht
      have hsub :
          bisect_candidate_count mgr previous - k =
            (bisect_candidate_count mgr previous - (k + 1)) + 1 := by omega
      rw [if_pos ht, hsub, List.range'_succ, List.map_cons, List.find?_cons]
      cases hc :
          mgr.is_complete (bisect_candidate mgr previous current k) with
      | true =>
        simp only [hc]
        rfl
      | false =>
        simp only [hc, Bool.false_eq_true, if_false]
        exact
          fsz_loop_eq_find mgr previous current hd fuel (k + 1) (by omega)
    · have hk : ¬(k + 1 ≤ bisect_candidate_count mgr previous) := fun hcon =>
        ht ((le_bisect_count_iff mgr previous hd k).mp hcon)
      have h0 : bisect_candidate_count mgr previous - k = 0 := by omega
      rw [if_neg ht, h0]
      simp [List.range']

theorem find_closest_eq_first_candidate (mgr : Manager State P Resources)
    (previous current : Solution State Resources)
    (hd : 0 < mgr.time_delta) :
    find_solution_closest_to_zero mgr previous current =
      first_complete_candidate mgr previous current := by
  unfold first_complete_candidate
  show
    fsz_loop mgr previous current (bisect_step_size mgr previous)
        ((Rat.floor (mgr.time_delta / bisect_step_size mgr previous)).toNat + 2)
        0 =
      _
  have hcount :
      (Rat.floor (mgr.time_delta / bisect_step_size mgr previous)).toNat + 2 =
        bisect_candidate_count mgr previous + 1 := by
    unfold bisect_candidate_count
    omega
  rw [hcount]
  rw [fsz_loop_eq_find mgr previous current hd
    (bisect_candidate_count mgr previous + 1) 0 (by omega)]
  rw [Nat.sub_zero, ← List.range_eq_range']

/-- Componentwise membership of `c` in the convex hull (interval hull) of
`a` and `b`, for the two resource components. -/
def in_hull (a b c : ResourcesQ) : Prop :=
  min a.energy b.energy ≤ c.energy ∧ c.energy ≤ max a.energy b.energy ∧
    min a.time b.time ≤ c.time ∧ c.time ≤ max a.time b.time

theorem lin_between (x0 x1 rel : Rat) (h0 : 0 ≤ rel) (h1 : rel ≤ 1) :
    min x0 x1 ≤ x0 + rel * (x1 - x0) ∧ x0 + rel * (x1 - x0) ≤ max x0 x1 := by
  rcases le_total x0 x1 with h | h
  · rw [min_eq_left h, max_eq_right h]
    constructor <;> nlinarith
  · rw [min_eq_right h, max_eq_left h]
    constructor <;> nlinarith

/-- Claim C3: for every manager with positive `time_delta` and `threshold`
whose resource interpolation is the componentwise linear one, and every pair
of solutions with `current` complete and `previous` not,
`find_solution_closest_to_zero` returns a complete solution whose resources
lie componentwise in the convex hull of the two endpoint resources, and it
equals the first complete interpolated candidate of the uniform subsampling
with step size `time_delta / (10 * max(1, |previous.distance| / threshold))`
(falling back to `current` when no candidate is complete). -/
theorem claim_C3_bisection (mgr : Manager State P ResourcesQ)
    (previous current : Solution State ResourcesQ)
    (hd : 0 < mgr.time_delta) (hth : 0 < mgr.threshold)
    (hcc : mgr.is_complete current = true)
    (hcp : mgr.is_complete previous = false)
    (hres : ∀ r0 r1 rel, mgr.interpolate_resources r0 r1 rel =
      ⟨r0.energy + rel * (r1.energy - r0.energy),
        r0.time + rel * (r1.time - r0.time)⟩) :
    mgr.is_complete (find_solution_closest_to_zero mgr previous current) =
        true ∧
      in_hull previous.resources current.resources
        (find_solution_closest_to_zero mgr previous current).resources ∧
      find_solution_closest_to_zero mgr previous current =
        first_complete_candidate mgr previous current := by
  have heq := find_closest_eq_first_candidate mgr previous current hd
  refine ⟨?_, ?_, heq⟩ <;> rw [heq] <;> unfold first_complete_candidate
  · cases hfind :
        ((List.range (bisect_candidate_count mgr previous)).map
            (bisect_candidate mgr previous current)).find?
          (fun sol => mgr.is_complete sol) with
    | none =>
      simp only [hfind, Option.getD_none]
      exact hcc
    | some sol =>
      simp only [hfind, Option.getD_some]
      exact List.find?_some hfind
  · cases hfind :
        ((List.range (bisect_candidate_count mgr previous)).map
            (bisect_candidate mgr previous current)).find?
          (fun sol => mgr.is_complete sol) with
    | none =>
      simp only [hfind, Option.getD_none]
      exact
        ⟨min_le_right _ _, le_max_right _ _, min_le_right _ _,
          le_max_right _ _⟩
    | some sol =>
      simp only [hfind, Option.getD_some]
      have hmem := List.mem_of_find?_eq_some hfind
      simp only [List.mem_map, List.mem_range] at hmem
      obtain ⟨k, hk, hcand⟩ := hmem
      have hstep := bisect_step_size_pos mgr previous hd
      have hrel0 :
          0 ≤ (k : Rat) * bisect_step_size mgr previous / mgr.time_delta :=
        div_nonneg (mul_nonneg (Nat.cast_nonneg k) (le_of_lt hstep))
          (le_of_lt hd)
      have hrel1 :
          (k : Rat) * bisect_step_size mgr previous / mgr.time_delta ≤ 1 := by
        rw [div_le_one hd]
        exact (le_bisect_count_iff mgr previous hd k).mp hk
      rw [← hcand]
      unfold bisect_candidate
      dsimp only
      rw [hres]
      have he :=
        lin_between previous.resources.energy current.resources.energy _
          hrel0 hrel1
      have htm :=
        lin_between previous.resources.time current.resources.time _
          hrel0 hrel1
      exact ⟨he.1, he.2, htm.1, htm.2⟩

/-- The incomplete snapshot used by the C3 witness. -/
def bisectPrev : Solution Rat ResourcesQ :=
  { sequence := [⟨1, 1⟩], state := 1, resources := ⟨1, 1⟩, distance := 1 }

/-- The complete overshooting solution used by the C3 witness. -/
def bisectCurr : Solution Rat ResourcesQ :=
  { sequence := [⟨1, 2⟩], state := 2, resources := ⟨2, 2⟩, distance := 0 }

unseal Rat.add Rat.mul Rat.inv Rat.sub in
/-- Claim C3 witness: the bisection statement instantiated on a concrete
manager and solution pair. -/
theorem claim_C3_bisection_witness :
    (0 : Rat) < toyMgr.time_delta ∧ (0 : Rat) < toyMgr.threshold ∧
      toyMgr.is_complete bisectCurr = true ∧
      toyMgr.is_complete bisectPrev = false ∧
      (toyMgr.is_complete
          (find_solution_closest_to_zero toyMgr bisectPrev bisectCurr) =
          true ∧
        in_hull bisectPrev.resources bisectCurr.resources
          (find_solution_closest_to_zero toyMgr bisectPrev
            bisectCurr).resources ∧
        find_solution_closest_to_zero toyMgr bisectPrev bisectCurr =
          first_complete_candidate toyMgr bisectPrev bisectCurr) :=
  ⟨by decide, by decide, by decide, by decide,
    claim_C3_bisection toyMgr bisectPrev bisectCurr (by decide) (by decide)
      (by decide) (by decide) (fun _ _ _ => rfl)⟩

/-- The per-iteration trace of the bounded loop: one entry (the new pending
and accepted sets) per executed call of the single-iteration step, with the
same guards, bound and early exits as `search_iteration_loop`. -/
def search_iteration_trace (alg : SearchAlgorithm)
    (mgr : Manager State P Resources) (ops : ResOps Resources)
    (modes : List (Mode P)) (steps : Nat) (timer : Timer) :
    Nat → List (Solution State Resources) → List (Solution State Resources) →
    Nat →
    Except SearchError
      (List (List (Solution State Resources) × List (Solution State Resources)))
  | 0, _, _, _ => .ok []
  | fuel + 1, pending, accepted, pc =>
    if pending.isEmpty then .ok []
    else
      match
        perform_search_single_iteration alg mgr ops modes steps pending
          accepted timer pc with
      | .error e => .error e
      | .ok (pending2, accepted2, pc2) =>
        if timer pc2 then .ok [(pending2, accepted2)]
        else
          match
            search_iteration_trace alg mgr ops modes steps timer fuel pending2
              accepted2 (pc2 + 1) with
          | .error e => .error e
          | .ok tr => .ok ((pending2, accepted2) :: tr)

theorem iteration_loop_trace (alg : SearchAlgorithm)
    (mgr : Manager State P Resources) (ops : ResOps Resources)
    (modes : List (Mode P)) (steps : Nat) (timer : Timer)
    (h1 : steps ≠ 0) (h2 : modes ≠ []) :
    ∀ (fuel iteration : Nat)
      (pending accepted : List (Solution State Resources)) (pc : Nat),
      ∃ out tr,
        search_iteration_loop alg mgr ops modes steps timer fuel iteration
            pending accepted pc = .ok out ∧
          search_iteration_trace alg mgr ops modes steps timer fuel pending
              accepted pc = .ok tr ∧
          out.1 = iteration + tr.length ∧ tr.length ≤ fuel
  | 0, iteration, pending, accepted, pc =>
    ⟨(iteration, accepted, pc), [], rfl, rfl, rfl, Nat.le_refl 0⟩
  | fuel + 1, iteration, pending, accepted, pc => by
    unfold search_iteration_loop search_iteration_trace
    by_cases hpe : pending.isEmpty
    · exact
        ⟨(iteration, accepted, pc), [], by rw [if_pos hpe],
          by rw [if_pos hpe], rfl, Nat.zero_le _⟩
    · rw [if_neg hpe, if_neg hpe,
        single_iteration_eq alg mgr ops modes steps pending accepted timer pc
          h1 h2]
      rcases hval : si_parts alg mgr ops modes steps pending accepted timer pc
        with ⟨p2, a2, pc2⟩
      by_cases ht : timer pc2 = true
      · exact
          ⟨(iteration + 1, a2, pc2 + 1), [(p2, a2)], by simp [ht],
            by simp [ht], by simp,
            by simp only [List.length_singleton]; omega⟩
      · obtain ⟨out, tr, hout, htr, hlen, hle⟩ :=
          iteration_loop_trace alg mgr ops modes steps timer h1 h2 fuel
            (iteration + 1) p2 a2 (pc2 + 1)
        refine ⟨out, (p2, a2) :: tr, ?_, ?_, ?_, ?_⟩
        · simp only [ht, Bool.false_eq_true, if_false]
          exact hout
        · simp only [ht, Bool.false_eq_true, if_false, htr]
        · simp only [List.length_cons]
          omega
        · simp only [List.length_cons]
          omega

/-- Claim C6: for every stride value, `perform_search_n_iterations`
terminates: it executes at most
`floor(time_max / (time_delta * steps_per_iteration))` single-iteration
steps (exiting earlier when the pending set empties or the timer reports a
timeout, as the trace shares those guards), and the `iteration` field of the
returned Pareto front equals the number of single-iteration steps actually
executed (the length of the trace). -/
theorem claim_C6_iteration_bound (alg : SearchAlgorithm)
    (mgr : Manager State P Resources) (ops : ResOps Resources)
    (modes : List (Mode P)) (steps : Nat)
    (front : ParetoFront State Resources) (timer : Timer) (pc : Nat)
    (h1 : steps ≠ 0) (h2 : modes ≠ []) :
    ∃ v tr,
      perform_search_n_iterations alg mgr ops modes steps front timer pc =
          .ok v ∧
        search_iteration_trace alg mgr ops modes steps timer
            (max_iterations_of mgr steps) (seed_solutions mgr ops modes)
            front.solutions pc = .ok tr ∧
        v.1.iteration = tr.length ∧
        v.1.iteration ≤ max_iterations_of mgr steps := by
  have h2b : modes.isEmpty = false := by
    cases modes with
    | nil => exact absurd rfl h2
    | cons m ms => rfl
  obtain ⟨out, tr, hout, htr, hlen, hle⟩ :=
    iteration_loop_trace alg mgr ops modes steps timer h1 h2
      (max_iterations_of mgr steps) 0 (seed_solutions mgr ops modes)
      front.solutions pc
  rcases out with ⟨it, acc2, pco⟩
  refine
    ⟨({ solutions := acc2, step_length := mgr.time_delta * (steps : Rat),
        steps_per_iteration := steps, iteration := it, runtime := 0 }, pco),
      tr, ?_, htr, ?_, ?_⟩
  · unfold perform_search_n_iterations
    simp [h1, h2b, hout]
  · simpa using hlen
  · simp only
    omega

unseal Rat.add Rat.mul Rat.inv Rat.sub in
/-- Claim C6 witness: the iteration-bound statement instantiated on the
concrete toy search (stride 1, no timeout). -/
theorem claim_C6_iteration_bound_witness :
    (1 : Nat) ≠ 0 ∧ toyModes ≠ [] ∧
      ∃ v tr,
        perform_search_n_iterations SearchAlgorithm.Exhaustive toyMgr resOpsQ
            toyModes 1 empty_front timerNever 0 = .ok v ∧
          search_iteration_trace SearchAlgorithm.Exhaustive toyMgr resOpsQ
              toyModes 1 timerNever (max_iterations_of toyMgr 1)
              (seed_solutions toyMgr resOpsQ toyModes)
              empty_front.solutions 0 = .ok tr ∧
          v.1.iteration = tr.length ∧
          v.1.iteration ≤ max_iterations_of toyMgr 1 :=
  ⟨by decide, by decide,
    claim_C6_iteration_bound SearchAlgorithm.Exhaustive toyMgr resOpsQ
      toyModes 1 empty_front timerNever 0 (by decide) (by decide)⟩

/-- The exact stride sequence claimed by the spec:
`[2^(iterations-1), ..., 2, 1]` (a single stride of 1 for SingleMachine). -/
def stride_sequence (alg : SearchAlgorithm) (iterations : Nat) : List Nat :=
  if alg = SearchAlgorithm.SingleMachine then [1]
  else (List.range iterations).map (fun k => 2 ^ (iterations - 1 - k))

/-- The halving sequence `[2^k, 2^(k-1), ..., 1]`. -/
def halving_list (k : Nat) : List Nat :=
  (List.range (k + 1)).map (fun j => 2 ^ (k - j))

/-- The spec-side orchestration of the stride-halving loop: run the bounded
search once per stride of the given list, feeding each front to the next
stride, and collect the non-empty fronts in this exact order. -/
def run_strides (alg : SearchAlgorithm)
    (mgr : Manager State P Resources) (ops : ResOps Resources)
    (modes : List (Mode P)) (timer : Timer) :
    List Nat → ParetoFront State Resources → Nat →
    Except SearchError (List (ParetoFront State Resources))
  | [], _, _ => .ok []
  | s :: rest, front, pc =>
    match perform_search_n_iterations alg mgr ops modes s front timer pc with
    | .error e => .error e
    | .ok (front2, pc2) =>
      match run_strides alg mgr ops modes timer rest front2 (pc2 + 1) with
      | .error e => .error e
      | .ok fronts =>
        .ok
          ((if front2.solutions.isEmpty then []
            else [{ front2 with runtime := 0 }]) ++ fronts)

theorem halving_list_succ (k : Nat) :
    halving_list (k + 1) = 2 ^ (k + 1) :: halving_list k := by
  unfold halving_list
  rw [List.range_succ_eq_map, List.map_cons, List.map_map]
  congr 1
  apply List.map_congr_left
  intro j hj
  simp only [Function.comp_apply]
  congr 1
  omega

theorem stride_loop_eq_run_strides (alg : SearchAlgorithm)
    (mgr : Manager State P Resources) (ops : ResOps Resources)
    (modes : List (Mode P)) (timer : Timer) (keys : Nat → KeyChoice)
    (hto : ∀ n, timer n = false) (hint : mgr.interactive = false) :
    ∀ (k fuel : Nat), 2 ^ k ≤ fuel →
      ∀ (front : ParetoFront State Resources)
        (acc : List (ParetoFront State Resources)) (disable : Bool)
        (pc ki : Nat),
        stride_loop alg mgr ops modes timer keys fuel (2 ^ k) front acc
            disable pc ki =
          Except.map (fun fronts => acc ++ fronts)
            (run_strides alg mgr ops modes timer (halving_list k) front pc)
  | 0, fuel, hfuel, front, acc, disable, pc, ki => by
    have hfuel1 : 1 ≤ fuel := hfuel
    cases fuel with
    | zero => exact absurd hfuel1 (by omega)
    | succ fuel2 =>
      unfold stride_loop
      rw [if_pos (by norm_num : 1 ≤ 2 ^ 0)]
      have hlist : halving_list 0 = [2 ^ 0] := rfl
      rw [hlist]
      cases hnit :
          perform_search_n_iterations alg mgr ops modes (2 ^ 0) front timer
            pc with
      | error e =>
        simp only [run_strides]
        rw [hnit]
        rfl
      | ok w =>
        obtain ⟨front2, pc2⟩ := w
        dsimp only
        rw [hto pc2]
        simp only [Bool.false_eq_true, if_false]
        have hnext :
            interactive_step disable mgr.interactive keys ki (2 ^ 0) =
              (2 ^ 0, disable, ki) := by
          simp [interactive_step, hint]
        rw [hnext]
        have hz : (2 : Nat) ^ 0 / 2 = 0 := rfl
        rw [hz]
        have hstop :
            stride_loop alg mgr ops modes timer keys fuel2 0 front2
                (if front2.solutions.isEmpty then acc
                  else acc ++ [{ front2 with runtime := 0 }]) disable (pc2 + 1)
                ki =
              .ok
                (if front2.solutions.isEmpty then acc
                  else acc ++ [{ front2 with runtime := 0 }]) := by
          cases fuel2 with
          | zero => rfl
          | succ f3 =>
            unfold stride_loop
            rw [if_neg (by omega)]
        rw [hstop]
        simp only [run_strides]
        rw [hnit]
        simp only [run_strides, Except.map]
        by_cases hfe : front2.solutions.isEmpty
        · simp [hfe]
        · simp [hfe]
  | k + 1, fuel, hfuel, front, acc, disable, pc, ki => by
    have hfuel1 : 1 ≤ fuel := Nat.le_trans (Nat.one_le_two_pow) hfuel
    cases fuel with
    | zero => exact absurd hfuel1 (by omega)
    | succ fuel2 =>
      unfold stride_loop
      rw [if_pos (Nat.one_le_two_pow)]
      cases hnit :
          perform_search_n_iterations alg mgr ops modes (2 ^ (k + 1)) front
            timer pc with
      | error e =>
        rw [halving_list_succ]
        simp only [run_strides]
        rw [hnit]
        rfl
      | ok w =>
        obtain ⟨front2, pc2⟩ := w
        dsimp only
        rw [hto pc2]
        simp only [Bool.false_eq_true, if_false]
        have hnext :
            interactive_step disable mgr.interactive keys ki (2 ^ (k + 1)) =
              (2 ^ (k + 1), disable, ki) := by
          simp [interactive_step, hint]
        rw [hnext]
        have hhalf : (2 : Nat) ^ (k + 1) / 2 = 2 ^ k := by
          rw [pow_succ]
          exact Nat.mul_div_cancel _ (by omega)
        rw [hhalf]
        rw [stride_loop_eq_run_strides alg mgr ops modes timer keys hto hint k
          fuel2 (by
            have : 2 ^ (k + 1) ≤ fuel2 + 1 := hfuel
            have h2 : 2 ^ k < 2 ^ (k + 1) := Nat.pow_lt_pow_right (by omega) (by omega)
            omega)
          front2 _ disable (pc2 + 1) ki]
        rw [halving_list_succ]
        simp only [run_strides]
        rw [hnit]
        dsimp only
        cases hrun :
            run_strides alg mgr ops modes timer (halving_list k) front2
              (pc2 + 1) with
        | error e => rfl
        | ok fronts =>
          simp only [Except.map]
          by_cases hfe : front2.solutions.isEmpty
          · simp [hfe]
          · simp [hfe]

theorem stride_sequence_eq_halving (alg : SearchAlgorithm)
    (iterations : Nat) (hiter : iterations ≠ 0)
    (halg : ¬alg = SearchAlgorithm.SingleMachine) :
    stride_sequence alg iterations = halving_list (iterations - 1) := by
  unfold stride_sequence halving_list
  rw [if_neg halg]
  have hit : iterations - 1 + 1 = iterations := by omega
  rw [hit]

/-- Claim C7: with no timeout and interaction off, `perform_search` runs the
stride-halving loop over exactly the stride sequence
`2^(iterations-1), ..., 2, 1` (a single stride 1 for SingleMachine, hence a
single pass when `iterations = 1`), appending each non-empty Pareto front in
exactly this coarsest-first order: the search equals the spec-side
orchestration `run_strides` over `stride_sequence`. -/
theorem claim_C7_stride_halving_order (alg : SearchAlgorithm)
    (mgr : Manager State P Resources) (ops : ResOps Resources)
    (modes : List (Mode P)) (iterations : Nat) (timer : Timer)
    (keys : Nat → KeyChoice) (hiter : iterations ≠ 0)
    (hto : ∀ n, timer n = false) (hint : mgr.interactive = false) :
    perform_search alg mgr ops modes iterations timer keys =
      Except.map (fun fronts => { pareto_fronts := fronts })
        (run_strides alg mgr ops modes timer (stride_sequence alg iterations)
          empty_front 0) := by
  unfold perform_search
  rw [if_neg hiter]
  by_cases halg : alg = SearchAlgorithm.SingleMachine
  · subst halg
    have hinit :
        init_stride SearchAlgorithm.SingleMachine iterations = 2 ^ 0 := rfl
    have hseq :
        stride_sequence SearchAlgorithm.SingleMachine iterations =
          halving_list 0 := rfl
    rw [hinit, hseq]
    rw [stride_loop_eq_run_strides SearchAlgorithm.SingleMachine mgr ops modes
      timer keys hto hint 0 (2 ^ 0) (Nat.le_refl _) empty_front [] false 0 0]
    cases hrun :
        run_strides SearchAlgorithm.SingleMachine mgr ops modes timer
          (halving_list 0) empty_front 0 with
    | error e => rfl
    | ok fronts => simp [Except.map]
  · have hinit :
        init_stride alg iterations = 2 ^ (iterations - 1) := by
      unfold init_stride
      rw [if_neg halg]
    rw [hinit, stride_sequence_eq_halving alg iterations hiter halg]
    rw [stride_loop_eq_run_strides alg mgr ops modes timer keys hto hint
      (iterations - 1) (2 ^ (iterations - 1)) (Nat.le_refl _) empty_front []
      false 0 0]
    cases hrun :
        run_strides alg mgr ops modes timer (halving_list (iterations - 1))
          empty_front 0 with
    | error e => rfl
    | ok fronts => simp [Except.map]

unseal Rat.add Rat.mul Rat.inv Rat.sub in
/-- Claim C7 witness: the stride-order statement instantiated on the
concrete toy search with two iterations and no timeout. -/
theorem claim_C7_stride_halving_order_witness :
    (2 : Nat) ≠ 0 ∧ (∀ n, timerNever n = false) ∧
      toyMgr.interactive = false ∧
      perform_search SearchAlgorithm.Exhaustive toyMgr resOpsQ toyModes 2
          timerNever keysC =
        Except.map (fun fronts => { pareto_fronts := fronts })
          (run_strides SearchAlgorithm.Exhaustive toyMgr resOpsQ toyModes
            timerNever (stride_sequence SearchAlgorithm.Exhaustive 2)
            empty_front 0) :=
  ⟨by decide, fun n => rfl, rfl,
    claim_C7_stride_halving_order SearchAlgorithm.Exhaustive toyMgr resOpsQ
      toyModes 2 timerNever keysC (by decide) (fun n => rfl) rfl⟩

theorem resourcesQ_ext (a b : ResourcesQ) (he : a.energy = b.energy)
    (ht : a.time = b.time) : a = b := by
  cases a
  cases b
  simp_all

theorem list_exists_min_image {α : Type} (f : α → Rat) :
    ∀ (l : List α), l ≠ [] → ∃ a ∈ l, ∀ b ∈ l, f a ≤ f b
  | [], h => absurd rfl h
  | [x], _ => ⟨x, List.mem_singleton_self x, by
      intro b hb
      rw [List.mem_singleton] at hb
      subst hb
      exact le_refl _⟩
  | x :: y :: rest, _ => by
    obtain ⟨a, ha, hmin⟩ :=
      list_exists_min_image f (y :: rest) (List.cons_ne_nil y rest)
    by_cases hx : f x ≤ f a
    · refine ⟨x, List.mem_cons_self x (y :: rest), ?_⟩
      intro b hb
      rcases List.mem_cons.mp hb with h1 | h1
      · subst h1
        exact le_refl _
      · exact le_trans hx (hmin b h1)
    · refine ⟨a, List.mem_cons_of_mem x ha, ?_⟩
      intro b hb
      rcases List.mem_cons.mp hb with h1 | h1
      · subst h1
        exact le_of_not_le hx
      · exact hmin b h1

theorem mem_enumFrom_of_mem {α : Type} :
    ∀ (l : List α) (n : Nat) (a : α), a ∈ l → ∃ i, (i, a) ∈ l.enumFrom n
  | [], _, _, h => absurd h (List.not_mem_nil _)
  | x :: xs, n, a, h => by
    rcases List.mem_cons.mp h with h1 | h1
    · subst h1
      exact ⟨n, List.mem_cons_self _ _⟩
    · obtain ⟨i, hi⟩ := mem_enumFrom_of_mem xs (n + 1) a h1
      exact ⟨i, List.mem_cons_of_mem _ hi⟩

/-- The strict dominance predicate of the repository example
(`discrete_search_t::is_strictly_better_than`, examples/tapping/search.hpp
lines 56-62) with exact componentwise resource comparison, abstracted over
the completion test. -/
def is_strictly_better_exact (complete : Solution State ResourcesQ → Bool)
    (x y : Solution State ResourcesQ) : Bool :=
  if x.sequence = y.sequence then false
  else
    complete x && res_leb x.resources y.resources &&
      !(resOpsQ.eqb x.resources y.resources)

/-- Claim C10: the single-vector `remove_dominated_solutions` keeps at least
one solution of a non-empty input whenever the dominance predicate in use
strictly decreases some rational measure on the input (a certificate of
acyclicity); and the strict dominance predicate under exact componentwise
resource comparison admits such a measure, `energy + time`. -/
theorem claim_C10_self_prune_nonempty (alg : SearchAlgorithm)
    (mgr : Manager State P Resources) (f : Solution State Resources → Rat)
    (sols : List (Solution State Resources)) (hne : sols ≠ [])
    (hmeas : ∀ x ∈ sols, ∀ y ∈ sols,
      dominates alg mgr x y = true → f x < f y) :
    remove_dominated_solutions_self alg mgr sols ≠ [] ∧
      (∀ (complete : Solution State ResourcesQ → Bool)
        (x y : Solution State ResourcesQ),
        is_strictly_better_exact complete x y = true →
        scalarize x.resources < scalarize y.resources) := by
  constructor
  · obtain ⟨a, ha, hmin⟩ := list_exists_min_image f sols hne
    obtain ⟨i, hia⟩ := mem_enumFrom_of_mem sols 0 a ha
    have hkeep :
        (sols.enum.any (fun q =>
          decide (q.1 ≠ (i, a).1) && dominates alg mgr q.2 (i, a).2)) =
          false := by
      rw [List.any_eq_false]
      intro q hq
      simp only [Bool.and_eq_true, decide_eq_true_eq, not_and]
      intro _
      intro hdom
      have hq2 : q.2 ∈ sols := mem_of_mem_enum sols 0 q hq
      have := hmeas q.2 hq2 a ha hdom
      have := hmin q.2 hq2
      simp only at this
      exact absurd (lt_of_le_of_lt this (hmeas q.2 hq2 a ha hdom)) (lt_irrefl _)
    have hmem :
        (i, a) ∈
          sols.enum.filter (fun p =>
            ! sols.enum.any (fun q =>
              decide (q.1 ≠ p.1) && dominates alg mgr q.2 p.2)) := by
      rw [List.mem_filter]
      exact ⟨hia, by rw [hkeep]; rfl⟩
    have hanz : a ∈ remove_dominated_solutions_self alg mgr sols := by
      unfold remove_dominated_solutions_self
      have hsne : sols.isEmpty = false := by
        cases sols with
        | nil => exact absurd rfl hne
        | cons z zs => rfl
      rw [hsne]
      simp only [Bool.false_eq_true, if_false]
      exact List.mem_map.mpr ⟨(i, a), hmem, rfl⟩
    intro hempty
    rw [hempty] at hanz
    exact List.not_mem_nil a hanz
  · intro complete x y hxy
    unfold is_strictly_better_exact at hxy
    by_cases hseq : x.sequence = y.sequence
    · rw [if_pos hseq] at hxy
      cases hxy
    · rw [if_neg hseq] at hxy
      simp only [Bool.and_eq_true, Bool.not_eq_true'] at hxy
      obtain ⟨⟨_, hle⟩, hneq⟩ := hxy
      unfold res_leb at hle
      simp only [Bool.and_eq_true, decide_eq_true_eq] at hle
      have hne2 : ¬(x.resources = y.resources) := by
        intro hcon
        unfold resOpsQ at hneq
        simp [hcon] at hneq
      unfold scalarize
      rcases lt_or_eq_of_le hle.1 with h1 | h1
      · nlinarith [hle.2]
      · rcases lt_or_eq_of_le hle.2 with h2 | h2
        · nlinarith
        · exact absurd (resourcesQ_ext _ _ h1 h2) hne2

/-- First element of the C10 witness list: a complete solution with the
smaller resources. -/
def pruneKeep : Solution Rat ResourcesQ :=
  { sequence := [⟨1, 2⟩], state := 2, resources := ⟨1, 1⟩, distance := 0 }

/-- Second element of the C10 witness list: an incomplete, dominated
solution. -/
def pruneDrop : Solution Rat ResourcesQ :=
  { sequence := [⟨0, 2⟩], state := 0, resources := ⟨2, 2⟩, distance := 2 }

unseal Rat.add Rat.mul Rat.inv Rat.sub in
/-- Claim C10 witness: the survivor statement instantiated on a concrete
two-element list whose dominance relation strictly decreases the measure
`energy + time`. -/
theorem claim_C10_self_prune_nonempty_witness :
    ([pruneKeep, pruneDrop] : List (Solution Rat ResourcesQ)) ≠ [] ∧
      (∀ x ∈ [pruneKeep, pruneDrop], ∀ y ∈ [pruneKeep, pruneDrop],
        dominates SearchAlgorithm.Exhaustive toyMgr x y = true →
        x.resources.energy + x.resources.time <
          y.resources.energy + y.resources.time) ∧
      (remove_dominated_solutions_self SearchAlgorithm.Exhaustive toyMgr
          [pruneKeep, pruneDrop] ≠ [] ∧
        (∀ (complete : Solution Rat ResourcesQ → Bool)
          (x y : Solution Rat ResourcesQ),
          is_strictly_better_exact complete x y = true →
          scalarize x.resources < scalarize y.resources)) :=
  ⟨by decide, by decide,
    claim_C10_self_prune_nonempty SearchAlgorithm.Exhaustive toyMgr
      (fun s => s.resources.energy + s.resources.time)
      [pruneKeep, pruneDrop] (by decide) (by decide)⟩

theorem evaluate_particle_inv (mgr : Manager State P ResourcesQ)
    (ops : ResOps ResourcesQ) (modes : List (Mode P))
    (particle pb gb : List ModeExecution) (pbf gbf C : Rat)
    (hgbf : gbf ≤ C)
    (hgen : scalarize (generate_solution mgr ops modes gb).resources ≤ C)
    (hC : C < dblMax) :
    (evaluate_particle mgr ops modes particle pb gb pbf gbf).2.2.2.2 ≤ C ∧
      scalarize
        (generate_solution mgr ops modes
          (evaluate_particle mgr ops modes particle pb gb pbf gbf).2.2.1).resources ≤
        C := by
  unfold evaluate_particle
  dsimp only
  by_cases hf :
      (if mgr.is_complete (generate_solution mgr ops modes particle) = true
        then scalarize (generate_solution mgr ops modes particle).resources
        else dblMax) < gbf
  · rw [if_pos hf]
    dsimp only
    constructor
    · exact le_of_lt (lt_of_lt_of_le hf hgbf)
    · by_cases hv :
          mgr.is_complete (generate_solution mgr ops modes particle) = true
      · rw [if_pos hv] at hf
        exact le_of_lt (lt_of_lt_of_le hf hgbf)
      · rw [if_neg hv] at hf
        exact absurd (lt_of_lt_of_le hf (le_trans hgbf (le_of_lt hC)))
          (lt_irrefl _)
  · rw [if_neg hf]
    exact ⟨hgbf, hgen⟩

theorem evaluate_all_inv (mgr : Manager State P ResourcesQ)
    (ops : ResOps ResourcesQ) (modes : List (Mode P)) (C : Rat)
    (hC : C < dblMax) :
    ∀ (particles pbs : List (List ModeExecution)) (pbfs : List Rat)
      (gb : List ModeExecution) (gbf : Rat),
      gbf ≤ C →
      scalarize (generate_solution mgr ops modes gb).resources ≤ C →
      (evaluate_all mgr ops modes particles pbs pbfs gb gbf).2.2.2 ≤ C ∧
        scalarize
          (generate_solution mgr ops modes
            (evaluate_all mgr ops modes particles pbs pbfs gb
              gbf).2.2.1).resources ≤ C
  | [], pbs, pbfs, gb, gbf => fun h1 h2 => ⟨h1, h2⟩
  | _ :: _, [], pbfs, gb, gbf => fun h1 h2 => ⟨h1, h2⟩
  | _ :: _, _ :: _, [], gb, gbf => fun h1 h2 => ⟨h1, h2⟩
  | particle :: particles, pb :: pbs, pbf :: pbfs, gb, gbf => fun h1 h2 => by
    unfold evaluate_all
    dsimp only
    have hstep :=
      evaluate_particle_inv mgr ops modes particle pb gb pbf gbf C h1 h2 hC
    exact
      evaluate_all_inv mgr ops modes C hC particles pbs pbfs
        (evaluate_particle mgr ops modes particle pb gb pbf gbf).2.2.1
        (evaluate_particle mgr ops modes particle pb gb pbf gbf).2.2.2.2
        hstep.1 hstep.2

theorem pso_main_loop_inv (mgr : Manager State P ResourcesQ)
    (ops : ResOps ResourcesQ) (parameters : SolverParameters)
    (modes : List (Mode P)) (C : Rat) (hC : C < dblMax) :
    ∀ (n : Nat) (particles pbs : List (List ModeExecution))
      (pbfs : List Rat) (vels : List (List Rat))
      (gb : List ModeExecution) (gbf : Rat),
      gbf ≤ C →
      scalarize (generate_solution mgr ops modes gb).resources ≤ C →
      scalarize
        (generate_solution mgr ops modes
          (pso_main_loop mgr ops parameters modes n particles pbs pbfs vels gb
            gbf).1).resources ≤ C
  | 0, particles, pbs, pbfs, vels, gb, gbf => fun _ h2 => h2
  | n + 1, particles, pbs, pbfs, vels, gb, gbf => fun h1 h2 => by
    unfold pso_main_loop pso_iteration
    dsimp only
    have heval := evaluate_all_inv mgr ops modes C hC particles pbs pbfs gb gbf
      h1 h2
    exact
      pso_main_loop_inv mgr ops parameters modes C hC n _ _ _ _ _ _ heval.1
        heval.2

theorem init_particles_pbs_getD (rng : Nat → Rat)
    (seed : List ModeExecution) :
    ∀ (n ri : Nat), ((init_particles rng seed n ri).2.1).getD 0 seed = seed
  | 0, _ => rfl
  | n + 1, ri => rfl

theorem optimize_solution_cost (mgr : Manager State P ResourcesQ)
    (ops : ResOps ResourcesQ) (parameters : SolverParameters)
    (modes : List (Mode P)) (rng : Nat → Rat)
    (initial : Solution State ResourcesQ)
    (hH :
      scalarize (generate_solution mgr ops modes initial.sequence).resources ≤
        scalarize initial.resources)
    (hfin : scalarize initial.resources < dblMax) :
    scalarize
        (optimize_solution mgr ops parameters modes rng initial).resources ≤
      scalarize initial.resources := by
  unfold optimize_solution
  dsimp only
  rw [init_particles_pbs_getD rng initial.sequence parameters.num_particles 0]
  exact
    pso_main_loop_inv mgr ops parameters modes (scalarize initial.resources)
      hfin parameters.max_iterations _ _ _ _ initial.sequence
      (scalarize initial.resources) (le_refl _) hH

theorem forall2_enum_map {α β : Type} (R : β → α → Prop)
    (g : Nat × α → β) :
    ∀ (l : List α) (n : Nat),
      (∀ p ∈ l.enumFrom n, R (g p) p.2) →
      List.Forall₂ R ((l.enumFrom n).map g) l
  | [], _, _ => List.Forall₂.nil
  | x :: xs, n, h => by
    simp only [List.enumFrom, List.map_cons]
    exact
      List.Forall₂.cons (h (n, x) (List.mem_cons_self _ _))
        (forall2_enum_map R g xs (n + 1)
          (fun p hp => h p (List.mem_cons_of_mem _ hp)))

/-- Claim C9 (amended): `optimize_pareto_front` preserves all front metadata
and produces exactly one optimized solution per input solution in order
(and `optimize_result` applies the front operation to every front in
order); the scalarized cost `energy + time` of each output solution is at
most that of the corresponding input solution PROVIDED each input solution
replays to a cost no larger than its recorded cost (and its cost is below
the invalid-fitness penalty): the global best starts at the input sequence
and is only ever replaced by a strictly cheaper valid particle, and the
returned solution is the replay of the final global best. -/
theorem claim_C9_optimize_monotone (mgr : Manager State P ResourcesQ)
    (ops : ResOps ResourcesQ) (parameters : SolverParameters)
    (modes : List (Mode P)) (rngs : Nat → Nat → Rat)
    (front : ParetoFront State ResourcesQ)
    (hnp : 1 ≤ parameters.num_particles)
    (hH : ∀ sol ∈ front.solutions,
      scalarize (generate_solution mgr ops modes sol.sequence).resources ≤
          scalarize sol.resources ∧
        scalarize sol.resources < dblMax) :
    (optimize_pareto_front mgr ops parameters modes rngs front).step_length =
        front.step_length ∧
      (optimize_pareto_front mgr ops parameters modes rngs
            front).steps_per_iteration =
        front.steps_per_iteration ∧
      (optimize_pareto_front mgr ops parameters modes rngs front).iteration =
        front.iteration ∧
      (optimize_pareto_front mgr ops parameters modes rngs front).runtime =
        front.runtime ∧
      (optimize_pareto_front mgr ops parameters modes rngs
            front).solutions.length =
        front.solutions.length ∧
      List.Forall₂
        (fun out inp =>
          scalarize out.resources ≤ scalarize inp.resources)
        (optimize_pareto_front mgr ops parameters modes rngs front).solutions
        front.solutions ∧
      (∀ (rngss : Nat → Nat → Nat → Rat) (result : Result State ResourcesQ),
        (optimize_result mgr ops parameters modes rngss
              result).pareto_fronts =
          (result.pareto_fronts.enum).map (fun p =>
            optimize_pareto_front mgr ops parameters modes (rngss p.1) p.2)) := by
  refine ⟨rfl, rfl, rfl, rfl, ?_, ?_, fun rngss result => rfl⟩
  · unfold optimize_pareto_front
    dsimp only
    rw [List.length_map, List.enum_length]
  · unfold optimize_pareto_front
    dsimp only
    apply forall2_enum_map
    intro p hp
    have hmem : p.2 ∈ front.solutions := mem_of_mem_enum front.solutions 0 p hp
    exact
      optimize_solution_cost mgr ops parameters modes (rngs p.1) p.2
        (hH p.2 hmem).1 (hH p.2 hmem).2

/-- The PSO parameters used by the concrete C9 runs: one particle, one
iteration, the default inertia and cognitive/social weights. -/
def psoParams : SolverParameters :=
  { num_particles := 1, max_iterations := 1, inertia := 1 / 5,
    cognitive := 2 / 5, social := 2 / 5 }

/-- The random oracle of the concrete C9 runs: every draw is 4, so the
jitter `max(times + 4 - 5, 1)` turns `times = 1` into `times = 1` and
`times = 2` into `times = 1`. -/
def psoRngs : Nat → Nat → Rat := fun _ _ => 4

/-- The C9 counterexample input solution: its recorded resources are
`(0, 0)` but replaying its sequence `[(1,1)]` under the far-target manager
costs `(1, 1)` and stays incomplete, so the PSO refiner returns a strictly
more expensive solution. -/
def psoBad : Solution Rat ResourcesQ :=
  { sequence := [⟨1, 1⟩], state := 0, resources := ⟨0, 0⟩, distance := 5 }

/-- The C9 counterexample front. -/
def psoFront : ParetoFront Rat ResourcesQ :=
  { solutions := [psoBad], step_length := 1, steps_per_iteration := 1,
    iteration := 1, runtime := 0 }

unseal Rat.add Rat.mul Rat.inv Rat.sub in
/-- Claim C9 counterexample: on the concrete front holding `psoBad`, the
optimized front's solution has scalarized cost 2 while the input recorded
cost 0, so the claimed monotone non-worsening of `energy + time` is false
as stated. -/
theorem claim_C9_counterexample :
    psoFront.solutions = [psoBad] ∧
      scalarize
          (((optimize_pareto_front toyMgrFar resOpsQ psoParams toyModes
              psoRngs psoFront).solutions.getD 0 psoBad).resources) >
        scalarize psoBad.resources := by
  constructor
  · rfl
  · decide

/-- The C9 witness input solution: recorded resources `(2, 2)`, and its
sequence `[(1,2)]` replays (with the completion bisection) to resources
`(31/20, 31/20)`, cheaper than recorded. -/
def psoGood : Solution Rat ResourcesQ :=
  { sequence := [⟨1, 2⟩], state := 2, resources := ⟨2, 2⟩, distance := 0 }

/-- The C9 witness front. -/
def psoGoodFront : ParetoFront Rat ResourcesQ :=
  { solutions := [psoGood], step_length := 1, steps_per_iteration := 1,
    iteration := 2, runtime := 0 }

unseal Rat.add Rat.mul Rat.inv Rat.sub in
/-- Claim C9 witness: the amended monotonicity statement instantiated on
the concrete well-behaved front. -/
theorem claim_C9_optimize_monotone_witness :
    1 ≤ psoParams.num_particles ∧
      (∀ sol ∈ psoGoodFront.solutions,
        scalarize
            (generate_solution toyMgr resOpsQ toyModes sol.sequence).resources ≤
            scalarize sol.resources ∧
          scalarize sol.resources < dblMax) ∧
      List.Forall₂
        (fun out inp =>
          scalarize out.resources ≤ scalarize inp.resources)
        (optimize_pareto_front toyMgr resOpsQ psoParams toyModes psoRngs
          psoGoodFront).solutions
        psoGoodFront.solutions :=
  ⟨by decide, by decide,
    (claim_C9_optimize_monotone toyMgr resOpsQ psoParams toyModes psoRngs
        psoGoodFront (by decide) (by decide)).2.2.2.2.2.1⟩
